import Mathlib

/-!
# ILI9341 SPI TFT driver: bus-trace model of `ili9341.c`

Every function of `ili9341.c` only talks to the outside world through three
HAL primitives (`HAL_GPIO_WritePin`, `HAL_SPI_Transmit` of one byte and
`HAL_Delay`).  A call is therefore modelled by the list of HAL events it
performs, in order.  The file-level static variables (`hspi`, `cs_port`, ...)
are passed explicitly as a `Binding`; the command macros of `ili9341.h` and the
table of `font.h` are not part of the sources and are taken as parameters.

Machine integers are natural numbers / integers with explicit reductions:
`uint8_t` arguments are reduced mod `2^8`, `uint16_t` arguments mod `2^16`,
and arithmetic on promoted operands is done in (32-bit) `int`, where none of
the expressions of this file can overflow.
-/

namespace ILI9341

/-- One call of a HAL primitive. -/
inductive Event where
  /-- The call `HAL_GPIO_WritePin(port, pin, level)`; `true` is `GPIO_PIN_SET`. -/
  | gpio (port pin : Nat) (level : Bool)
  /-- The call `HAL_SPI_Transmit(h, &byte, 1, HAL_MAX_DELAY)`. -/
  | spi (h : Nat) (byte : Nat)
  /-- The call `HAL_Delay(ms)`. -/
  | delay (ms : Nat)
  deriving DecidableEq, Repr

/-- A bus trace: the HAL calls of one run, oldest first. -/
abbrev Trace := List Event

/-- The static variables of `ili9341.c` (lines 4-10); handles and ports are
represented by numbers. -/
structure Binding where
  hspi : Nat
  cs_port : Nat
  cs_pin : Nat
  dc_port : Nat
  dc_pin : Nat
  reset_port : Nat
  reset_pin : Nat
  deriving DecidableEq, Repr

/-- The command macros of `ili9341.h` used by `ili9341.c`.  The header is not
part of the sources, so their values are parameters of the model. -/
structure Commands where
  ILI9341_CASET : Nat
  ILI9341_PASET : Nat
  ILI9341_RAMWR : Nat
  ILI9341_SWRESET : Nat
  ILI9341_PWCTR1 : Nat
  ILI9341_PWCTR2 : Nat
  ILI9341_VMCTR1 : Nat
  ILI9341_VMCTR2 : Nat
  ILI9341_MADCTL : Nat
  ILI9341_PIXFMT : Nat
  ILI9341_SLPOUT : Nat
  ILI9341_DISPON : Nat
  deriving DecidableEq, Repr

/-- Conversion of an `int` value to `uint16_t`. -/
def toU16 (v : Int) : Nat := (v % 65536).toNat

/-- A C `for (i = i0; i < i0 + n; i++) body(i)` loop whose body does not write
`i`: `n` iterations remain, the counter is `i`. -/
def forLoop (body : Nat → Trace) : Nat → Nat → Trace
  | _, 0 => []
  | i, n + 1 => body i ++ forLoop body (i + 1) n

/-- `ILI9341_WriteCommand` (lines 13-19); the argument is converted to
`uint8_t`. -/
def ILI9341_WriteCommand (b : Binding) (cmd : Nat) : Trace :=
  [ Event.gpio b.dc_port b.dc_pin false,
    Event.gpio b.cs_port b.cs_pin false,
    Event.spi b.hspi (cmd % 256),
    Event.gpio b.cs_port b.cs_pin true ]

/-- `ILI9341_WriteData` (lines 22-28); the argument is converted to
`uint8_t`. -/
def ILI9341_WriteData (b : Binding) (data : Nat) : Trace :=
  [ Event.gpio b.dc_port b.dc_pin true,
    Event.gpio b.cs_port b.cs_pin false,
    Event.spi b.hspi (data % 256),
    Event.gpio b.cs_port b.cs_pin true ]

/-- `ILI9341_SetAddressWindow` (lines 31-46). -/
def ILI9341_SetAddressWindow (b : Binding) (k : Commands) (x0 y0 x1 y1 : Nat) : Trace :=
  ILI9341_WriteCommand b k.ILI9341_CASET
    ++ ILI9341_WriteData b (x0 >>> 8)
    ++ ILI9341_WriteData b (x0 &&& 0xFF)
    ++ ILI9341_WriteData b (x1 >>> 8)
    ++ ILI9341_WriteData b (x1 &&& 0xFF)
    ++ ILI9341_WriteCommand b k.ILI9341_PASET
    ++ ILI9341_WriteData b (y0 >>> 8)
    ++ ILI9341_WriteData b (y0 &&& 0xFF)
    ++ ILI9341_WriteData b (y1 >>> 8)
    ++ ILI9341_WriteData b (y1 &&& 0xFF)
    ++ ILI9341_WriteCommand b k.ILI9341_RAMWR

/-- The body shared by the pixel loops of `ILI9341_FillScreen` and
`ILI9341_FillRectangle`: the two `ILI9341_WriteData` calls of one pixel. -/
def writePixel (b : Binding) (color : Nat) : Trace :=
  ILI9341_WriteData b (color >>> 8) ++ ILI9341_WriteData b (color &&& 0xFF)

/-- `ILI9341_FillScreen` (lines 49-57). -/
def ILI9341_FillScreen (b : Binding) (k : Commands) (color : Nat) : Trace :=
  ILI9341_SetAddressWindow b k 0 0 239 319
    ++ forLoop (fun _ => writePixel b color) 0 (240 * 320)

/-- `ILI9341_FillRectangle` (lines 69-85).  `x`, `y`, `w`, `h`, `color` are
`uint16_t` values.  The clip tests and the window corner are computed in
`int`; the assignments to `w`, `h` and the arguments of
`ILI9341_SetAddressWindow` are converted back to `uint16_t`.  The loop bound
`w * h` is an `int` compared with the `uint32_t` counter. -/
def ILI9341_FillRectangle (b : Binding) (k : Commands) (x y w h color : Nat) : Trace :=
  if x ≥ 240 ∨ y ≥ 320 then []
  else
    let w1 : Nat := if ((x : Int) + (w : Int) - 1) ≥ 240 then toU16 (240 - (x : Int)) else w
    let h1 : Nat := if ((y : Int) + (h : Int) - 1) ≥ 320 then toU16 (320 - (y : Int)) else h
    ILI9341_SetAddressWindow b k x y
        (toU16 ((x : Int) + (w1 : Int) - 1)) (toU16 ((y : Int) + (h1 : Int) - 1))
      ++ forLoop (fun _ => writePixel b color) 0 ((w1 * h1) % 4294967296)

/-- `ILI9341_DrawPixel` (lines 123-129). -/
def ILI9341_DrawPixel (b : Binding) (k : Commands) (x y color : Nat) : Trace :=
  if x ≥ 240 ∨ y ≥ 320 then []
  else
    ILI9341_SetAddressWindow b k x y (toU16 ((x : Int) + 1)) (toU16 ((y : Int) + 1))
      ++ ILI9341_WriteData b (color >>> 8)
      ++ ILI9341_WriteData b (color &&& 0xFF)

/-- A call made by `ILI9341_DrawChar`: either `ILI9341_DrawPixel(x, y, color)`
or `ILI9341_FillRectangle(x, y, w, h, color)`, with the arguments as received
by the callee (already converted to `uint16_t`). -/
inductive DrawCall where
  | pixel (x y color : Nat)
  | rect (x y w h color : Nat)
  deriving DecidableEq, Repr

/-- The bus trace of one call made by `ILI9341_DrawChar`. -/
def DrawCall.run (b : Binding) (k : Commands) : DrawCall → Trace
  | .pixel x y color => ILI9341_DrawPixel b k x y color
  | .rect x y w h color => ILI9341_FillRectangle b k x y w h color

/-- The read `font[idx]` of line 92, stored into the `uint8_t line`.  The
table of `font.h` is a parameter; an index outside the table has no defined
value (`none`). -/
def fontRead (font : List Nat) (idx : Int) : Option Nat :=
  if 0 ≤ idx ∧ idx < (font.length : Int) then some (font.getD idx.toNat 0 % 256) else none

/-- The draw call of one iteration of the inner loop of `ILI9341_DrawChar`
(lines 95-116), if there is one. -/
def DrawChar_bit (x y i j line fg_color bg_color size : Nat) : List DrawCall :=
  if line &&& 0x1 ≠ 0 then
    if size = 1 then [DrawCall.pixel (toU16 ((x : Int) + i)) (toU16 ((y : Int) + j)) fg_color]
    else [DrawCall.rect (toU16 ((x : Int) + (i * size : Nat))) (toU16 ((y : Int) + (j * size : Nat)))
            size size fg_color]
  else if bg_color ≠ fg_color then
    if size = 1 then [DrawCall.pixel (toU16 ((x : Int) + i)) (toU16 ((y : Int) + j)) bg_color]
    else [DrawCall.rect (toU16 ((x : Int) + (i * size : Nat))) (toU16 ((y : Int) + (j * size : Nat)))
            size size bg_color]
  else []

/-- The inner loop of `ILI9341_DrawChar` (lines 93-118) from counter `j` with
`n` iterations left; `line` is shifted right once per iteration. -/
def DrawChar_column (x y i fg_color bg_color size : Nat) : Nat → Nat → Nat → List DrawCall
  | _, _, 0 => []
  | line, j, n + 1 =>
      DrawChar_bit x y i j line fg_color bg_color size
        ++ DrawChar_column x y i fg_color bg_color size ((line >>> 1) % 256) (j + 1) n

/-- The outer loop of `ILI9341_DrawChar` (lines 90-119) from counter `i` with
`n` iterations left.  `c` is the `char` argument promoted to `int`. -/
def DrawChar_columns (font : List Nat) (x y : Nat) (c : Int) (fg_color bg_color size : Nat) :
    Nat → Nat → Option (List DrawCall)
  | _, 0 => some []
  | i, n + 1 =>
      match fontRead font ((c - 32) * 5 + (i : Int)) with
      | none => none
      | some line =>
          match DrawChar_columns font x y c fg_color bg_color size (i + 1) n with
          | none => none
          | some rest => some (DrawChar_column x y i fg_color bg_color size line 0 8 ++ rest)

/-- The sequence of draw calls of `ILI9341_DrawChar` (lines 88-120), or `none`
when a font read falls outside the table. -/
def DrawChar_calls (font : List Nat) (x y : Nat) (c : Int) (fg_color bg_color size : Nat) :
    Option (List DrawCall) :=
  DrawChar_columns font x y c fg_color bg_color size 0 5

/-- The concatenated bus trace of a sequence of draw calls. -/
def runCalls (b : Binding) (k : Commands) (calls : List DrawCall) : Trace :=
  (calls.map (DrawCall.run b k)).flatten

/-- `ILI9341_DrawChar` (lines 88-120): the bus trace of its draw calls. -/
def ILI9341_DrawChar (b : Binding) (k : Commands) (font : List Nat) (x y : Nat) (c : Int)
    (fg_color bg_color size : Nat) : Option Trace :=
  (DrawChar_calls font x y c fg_color bg_color size).map (runCalls b k)

/-- `ILI9341_DrawString` (lines 132-140).  `str` lists the `char`s the pointer
walks over; the loop stops at the first `0`, and the end of the list stands
for the terminating NUL. -/
def ILI9341_DrawString (b : Binding) (k : Commands) (font : List Nat) :
    Nat → Nat → List Int → Nat → Nat → Nat → Option Trace
  | _, _, [], _, _, _ => some []
  | x, y, c :: str, fg_color, bg_color, size =>
      if c = 0 then some []
      else
        match ILI9341_DrawChar b k font x y c fg_color bg_color size with
        | none => none
        | some t =>
            match ILI9341_DrawString b k font (toU16 ((x : Int) + (6 * size : Nat))) y str
                fg_color bg_color size with
            | none => none
            | some rest => some (t ++ rest)

/-- The bytes handed to `HAL_SPI_Transmit` in a trace, in order. -/
def spiBytes (t : Trace) : List Nat :=
  t.filterMap (fun e => match e with
    | Event.spi _ v => some v
    | _ => none)

/-- A sample binding used to evaluate the model on concrete inputs. -/
def sampleBinding : Binding :=
  { hspi := 1, cs_port := 2, cs_pin := 16, dc_port := 2, dc_pin := 32,
    reset_port := 3, reset_pin := 64 }

/-- Sample values for the command macros (the codes of the ILI9341 data
sheet), used to evaluate the model on concrete inputs. -/
def sampleCommands : Commands :=
  { ILI9341_CASET := 0x2A, ILI9341_PASET := 0x2B, ILI9341_RAMWR := 0x2C,
    ILI9341_SWRESET := 0x01, ILI9341_PWCTR1 := 0xC0, ILI9341_PWCTR2 := 0xC1,
    ILI9341_VMCTR1 := 0xC5, ILI9341_VMCTR2 := 0xC7, ILI9341_MADCTL := 0x36,
    ILI9341_PIXFMT := 0x3A, ILI9341_SLPOUT := 0x11, ILI9341_DISPON := 0x29 }

/-- The value of `line` for column `i` of character `c` when the read of
line 92 is inside the table: the byte `font[(c - 32) * 5 + i]`. -/
def glyphByte (font : List Nat) (c : Int) (i : Nat) : Nat :=
  font.getD ((c - 32) * 5 + (i : Int)).toNat 0 % 256

/-- The draw call for glyph column `i`, bit `j`, in colour `color`:
`ILI9341_DrawPixel` at size 1, an `ILI9341_FillRectangle` block otherwise. -/
def glyphCall (x y i j color size : Nat) : DrawCall :=
  if size = 1 then DrawCall.pixel (toU16 ((x : Int) + i)) (toU16 ((y : Int) + j)) color
  else DrawCall.rect (toU16 ((x : Int) + (i * size : Nat))) (toU16 ((y : Int) + (j * size : Nat)))
          size size color

/-- The draw calls for one glyph bit: foreground when the bit is set,
background when it is clear and the colours differ, nothing otherwise. -/
def bitCalls (x y i j : Nat) (bit : Bool) (fg_color bg_color size : Nat) : List DrawCall :=
  if bit then [glyphCall x y i j fg_color size]
  else if bg_color ≠ fg_color then [glyphCall x y i j bg_color size]
  else []

/-- The number of 1 bits among bits 0..7 of `v`. -/
def popCount8 (v : Nat) : Nat :=
  ((List.range 8).filter (fun j => v.testBit j)).length

/-- A sample font table: blank glyphs for the characters 32..64 followed by
the five column bytes of a 5x8 letter `A` at offset `(65 - 32) * 5 = 165`. -/
def sampleFont : List Nat :=
  List.replicate 165 0 ++ [0x7C, 0x12, 0x11, 0x12, 0x7C]

/-- The concatenation of the traces of a sequence of calls run one after the
other; undefined as soon as one of them is. -/
def sequenceTraces : List (Option Trace) → Option Trace
  | [] => some []
  | none :: _ => none
  | some t :: rest =>
      match sequenceTraces rest with
      | none => none
      | some r => some (t ++ r)

/-- `ILI9341_Init` (lines 144-187).  `prior` is the value of the static
variables before the call; the function assigns its arguments to the seven
statics one after the other (lines 146-152) and then drives the bus through
the statics.  The result is the new value of the statics together with the
bus trace. -/
def ILI9341_Init (k : Commands) (prior : Binding)
    (hspi_instance cs_port_instance cs_pin_instance dc_port_instance dc_pin_instance
      reset_port_instance reset_pin_instance : Nat) : Binding × Trace :=
  let s1 : Binding := { prior with hspi := hspi_instance }
  let s2 : Binding := { s1 with cs_port := cs_port_instance }
  let s3 : Binding := { s2 with cs_pin := cs_pin_instance }
  let s4 : Binding := { s3 with dc_port := dc_port_instance }
  let s5 : Binding := { s4 with dc_pin := dc_pin_instance }
  let s6 : Binding := { s5 with reset_port := reset_port_instance }
  let b : Binding := { s6 with reset_pin := reset_pin_instance }
  (b,
    [Event.gpio b.reset_port b.reset_pin false, Event.delay 10,
     Event.gpio b.reset_port b.reset_pin true, Event.delay 120]
      ++ ILI9341_WriteCommand b k.ILI9341_SWRESET
      ++ [Event.delay 150]
      ++ ILI9341_WriteCommand b k.ILI9341_PWCTR1
      ++ ILI9341_WriteData b 0x23
      ++ ILI9341_WriteCommand b k.ILI9341_PWCTR2
      ++ ILI9341_WriteData b 0x10
      ++ ILI9341_WriteCommand b k.ILI9341_VMCTR1
      ++ ILI9341_WriteData b 0x3E
      ++ ILI9341_WriteData b 0x28
      ++ ILI9341_WriteCommand b k.ILI9341_VMCTR2
      ++ ILI9341_WriteData b 0x86
      ++ ILI9341_WriteCommand b k.ILI9341_MADCTL
      ++ ILI9341_WriteData b 0x48
      ++ ILI9341_WriteCommand b k.ILI9341_PIXFMT
      ++ ILI9341_WriteData b 0x55
      ++ ILI9341_WriteCommand b k.ILI9341_SLPOUT
      ++ [Event.delay 120]
      ++ ILI9341_WriteCommand b k.ILI9341_DISPON)

/-- The arguments of the `HAL_Delay` calls of a trace, in order. -/
def delays (t : Trace) : List Nat :=
  t.filterMap (fun e => match e with
    | Event.delay ms => some ms
    | _ => none)

/-- The pixel `(px, py)` lies in the address window `(x0, y0, x1, y1)`, whose
corners are inclusive. -/
def inWindow (x0 y0 x1 y1 px py : Nat) : Prop :=
  x0 ≤ px ∧ px ≤ x1 ∧ y0 ≤ py ∧ py ≤ y1

/-- The level of the chip-select line after a trace: the level of the last
`HAL_GPIO_WritePin` to the chip-select pin, `none` if it was never written. -/
def csLevel (b : Binding) (t : Trace) : Option Bool :=
  t.foldl (fun lvl e => match e with
    | Event.gpio p n l => if p = b.cs_port ∧ n = b.cs_pin then some l else lvl
    | _ => lvl) none

/-- Chip-select framing of a trace: every transmitted byte is immediately
preceded by a chip-select-low write and immediately followed by a
chip-select-high write, is sent while the line is low, two bytes are always
separated by a chip-select-high write, and a non-empty trace ends with the
chip-select-high write that closes its last frame. -/
def CsFramed (b : Binding) (t : Trace) : Prop :=
  (∀ i h v : Nat, t[i]? = some (Event.spi h v) →
      1 ≤ i ∧ t[i - 1]? = some (Event.gpio b.cs_port b.cs_pin false)
        ∧ t[i + 1]? = some (Event.gpio b.cs_port b.cs_pin true)
        ∧ csLevel b (t.take i) = some false)
    ∧ (∀ i j h v h' v' : Nat, i < j →
        t[i]? = some (Event.spi h v) → t[j]? = some (Event.spi h' v') →
        ∃ m, i < m ∧ m < j ∧ t[m]? = some (Event.gpio b.cs_port b.cs_pin true))
    ∧ (t = [] ∨ t.getLast? = some (Event.gpio b.cs_port b.cs_pin true))

/-- A trace built from chip-select frames `[CS low, byte, CS high]` and events
that transmit nothing. -/
inductive Framed (b : Binding) : Trace → Prop where
  | nil : Framed b []
  | frame (h v : Nat) (t : Trace) : Framed b t →
      Framed b (Event.gpio b.cs_port b.cs_pin false :: Event.spi h v
        :: Event.gpio b.cs_port b.cs_pin true :: t)
  | skip (e : Event) (t : Trace) : (∀ h v : Nat, e ≠ Event.spi h v) → Framed b t →
      Framed b (e :: t)

/-- A trace that is empty or ends with a chip-select-high write. -/
def EndsCsHigh (b : Binding) (t : Trace) : Prop :=
  t = [] ∨ t.getLast? = some (Event.gpio b.cs_port b.cs_pin true)

/-! ## Arithmetic and loop lemmas -/

theorem and_255 (n : Nat) : n &&& 0xFF = n % 256 := by
  have := Nat.and_pow_two_sub_one_eq_mod n 8
  simpa using this

theorem shr_8 (n : Nat) : n >>> 8 = n / 256 := by
  simp [Nat.shiftRight_eq_div_pow]

theorem and_1 (n : Nat) : n &&& 0x1 = n % 2 := by
  simp [Nat.and_one_is_mod]

theorem forLoop_const (t : Trace) (i n : Nat) :
    forLoop (fun _ => t) i n = (List.replicate n t).flatten := by
  induction n generalizing i with
  | zero => rfl
  | succ n ih => simp [forLoop, ih, List.replicate_succ]

theorem toU16_natCast (n : Nat) : toU16 (n : Int) = n % 65536 := by
  unfold toU16; omega

/-- The clip `if ((x + w - 1) >= lim) w = lim - x;` leaves `min w (lim - x)`
in `w`. -/
theorem clip_eq_min (x w lim : Nat) (hx : x < lim) (hl : lim < 65536) :
    (if ((x : Int) + (w : Int) - 1) ≥ (lim : Int) then toU16 ((lim : Int) - (x : Int)) else w)
      = min w (lim - x) := by
  unfold toU16
  split <;> omega

theorem writePixel_bytes (b : Binding) (color : Nat) (hc : color < 65536) :
    writePixel b color =
      [ Event.gpio b.dc_port b.dc_pin true, Event.gpio b.cs_port b.cs_pin false,
        Event.spi b.hspi (color / 256), Event.gpio b.cs_port b.cs_pin true,
        Event.gpio b.dc_port b.dc_pin true, Event.gpio b.cs_port b.cs_pin false,
        Event.spi b.hspi (color % 256), Event.gpio b.cs_port b.cs_pin true ] := by
  have h1 : color / 256 % 256 = color / 256 := by omega
  simp [writePixel, ILI9341_WriteData, and_255, shr_8, h1]

/-! ## Filled rectangles -/

/-- C1: for `x < 240`, `y < 320` (and a 16-bit colour) the trace of
`ILI9341_FillRectangle(x,y,w,h,color)` is one address-window set followed by
exactly `w1 * h1` pixel writes, where `w1 = min w (240 - x)` and
`h1 = min h (320 - y)`, so that `x + w1 - 1 < 240` and `y + h1 - 1 < 320` in
`int`; every pixel write is the data byte `color >> 8` followed by the data
byte `color & 0xFF`. -/
theorem FillRectangle_pixel_writes (b : Binding) (k : Commands) (x y w h color : Nat)
    (hx : x < 240) (hy : y < 320) (hc : color < 65536) :
    ILI9341_FillRectangle b k x y w h color
        = ILI9341_SetAddressWindow b k x y
            (toU16 ((x : Int) + (min w (240 - x) : Nat) - 1))
            (toU16 ((y : Int) + (min h (320 - y) : Nat) - 1))
          ++ (List.replicate (min w (240 - x) * min h (320 - y))
                (ILI9341_WriteData b (color >>> 8) ++ ILI9341_WriteData b (color &&& 0xFF))).flatten
      ∧ (x : Int) + (min w (240 - x) : Nat) - 1 < 240
      ∧ (y : Int) + (min h (320 - y) : Nat) - 1 < 320
      ∧ ILI9341_WriteData b (color >>> 8) ++ ILI9341_WriteData b (color &&& 0xFF)
          = [ Event.gpio b.dc_port b.dc_pin true, Event.gpio b.cs_port b.cs_pin false,
              Event.spi b.hspi (color / 256), Event.gpio b.cs_port b.cs_pin true,
              Event.gpio b.dc_port b.dc_pin true, Event.gpio b.cs_port b.cs_pin false,
              Event.spi b.hspi (color % 256), Event.gpio b.cs_port b.cs_pin true ] := by
  have hw := clip_eq_min x w 240 hx (by decide)
  have hh := clip_eq_min y h 320 hy (by decide)
  have hprod : min w (240 - x) * min h (320 - y) % 4294967296
      = min w (240 - x) * min h (320 - y) := by
    apply Nat.mod_eq_of_lt
    have h1 : min w (240 - x) ≤ 240 := by omega
    have h2 : min h (320 - y) ≤ 320 := by omega
    calc min w (240 - x) * min h (320 - y) ≤ 240 * 320 := Nat.mul_le_mul h1 h2
      _ < 4294967296 := by decide
  refine ⟨?_, by omega, by omega, writePixel_bytes b color hc⟩
  have hg : ¬ (x ≥ 240 ∨ y ≥ 320) := by omega
  unfold ILI9341_FillRectangle
  rw [if_neg hg]
  simp only [Nat.cast_ofNat] at hw hh
  simp only [hw, hh, hprod, forLoop_const, writePixel]

/-- C1, evaluated: a rectangle anchored at (238, 318) with `w = h = 65535` is
clipped to 2 x 2, so the window is (238, 318, 239, 319) and 4 pixels follow. -/
theorem FillRectangle_pixel_writes_witness :
    (238 < 240 ∧ 318 < 320 ∧ 0x1234 < 65536)
      ∧ ILI9341_FillRectangle sampleBinding sampleCommands 238 318 65535 65535 0x1234
          = ILI9341_SetAddressWindow sampleBinding sampleCommands 238 318 239 319
            ++ (List.replicate 4
                  (ILI9341_WriteData sampleBinding 0x12
                    ++ ILI9341_WriteData sampleBinding 0x34)).flatten :=
  ⟨by decide,
   (FillRectangle_pixel_writes sampleBinding sampleCommands 238 318 65535 65535 0x1234
      (by decide) (by decide) (by decide)).1⟩

/-- C2 (failing input): with `x = y = 0` and `w = h = 0` neither clip test
fires (`-1 >= 240` is false in `int`), the corner `x + w - 1 = -1` is converted
to the `uint16_t` value 65535, and the window handed to
`ILI9341_SetAddressWindow` is (0, 0, 65535, 65535), outside the 240 x 320
panel; no pixel follows. -/
theorem FillRectangle_empty_at_origin (b : Binding) (k : Commands) (color : Nat) :
    ILI9341_FillRectangle b k 0 0 0 0 color
        = ILI9341_SetAddressWindow b k 0 0 65535 65535
      ∧ spiBytes (ILI9341_FillRectangle b k 0 0 0 0 color)
        = [k.ILI9341_CASET % 256, 0, 0, 255, 255, k.ILI9341_PASET % 256, 0, 0, 255, 255,
            k.ILI9341_RAMWR % 256]
      ∧ ¬ (65535 ≤ 239) := by
  have h : ILI9341_FillRectangle b k 0 0 0 0 color
      = ILI9341_SetAddressWindow b k 0 0 65535 65535 := by
    simp [ILI9341_FillRectangle, toU16, forLoop]
  refine ⟨h, ?_, by decide⟩
  rw [h]
  simp [spiBytes, ILI9341_SetAddressWindow, ILI9341_WriteCommand, ILI9341_WriteData, and_255, shr_8]

/-! ## Pixels, address windows and full-screen fill -/

theorem spiBytes_append (s t : Trace) : spiBytes (s ++ t) = spiBytes s ++ spiBytes t := by
  simp [spiBytes, List.filterMap_append]

theorem spiBytes_WriteCommand (b : Binding) (v : Nat) :
    spiBytes (ILI9341_WriteCommand b v) = [v % 256] := by
  simp [spiBytes, ILI9341_WriteCommand]

theorem spiBytes_WriteData (b : Binding) (v : Nat) :
    spiBytes (ILI9341_WriteData b v) = [v % 256] := by
  simp [spiBytes, ILI9341_WriteData]

/-- C3: for `x < 240`, `y < 320` and a 16-bit colour, the trace of
`ILI9341_DrawPixel(x,y,color)` is exactly the trace of
`ILI9341_SetAddressWindow(x, y, x+1, y+1)` followed by the two data writes
`color >> 8` and `color & 0xFF`; the bytes transmitted by these two writes are
the big-endian bytes `color / 256`, `color % 256` of the colour. -/
theorem DrawPixel_trace (b : Binding) (k : Commands) (x y color : Nat)
    (hx : x < 240) (hy : y < 320) (hc : color < 65536) :
    ILI9341_DrawPixel b k x y color
        = ILI9341_SetAddressWindow b k x y (x + 1) (y + 1)
          ++ ILI9341_WriteData b (color >>> 8) ++ ILI9341_WriteData b (color &&& 0xFF)
      ∧ spiBytes (ILI9341_WriteData b (color >>> 8) ++ ILI9341_WriteData b (color &&& 0xFF))
          = [color / 256, color % 256]
      ∧ 256 * (color / 256) + color % 256 = color := by
  have hg : ¬ (x ≥ 240 ∨ y ≥ 320) := by omega
  have h1 : toU16 ((x : Int) + 1) = x + 1 := by unfold toU16; omega
  have h2 : toU16 ((y : Int) + 1) = y + 1 := by unfold toU16; omega
  have h3 : color / 256 % 256 = color / 256 := by omega
  refine ⟨?_, ?_, by omega⟩
  · unfold ILI9341_DrawPixel
    rw [if_neg hg, h1, h2]
  · simp [spiBytes_append, spiBytes_WriteData, and_255, shr_8, h3]

/-- C3, evaluated at pixel (10, 20) with colour 0xF81F. -/
theorem DrawPixel_trace_witness :
    (10 < 240 ∧ 20 < 320 ∧ 0xF81F < 65536)
      ∧ ILI9341_DrawPixel sampleBinding sampleCommands 10 20 0xF81F
          = ILI9341_SetAddressWindow sampleBinding sampleCommands 10 20 11 21
            ++ ILI9341_WriteData sampleBinding 0xF8 ++ ILI9341_WriteData sampleBinding 0x1F :=
  ⟨by decide,
   (DrawPixel_trace sampleBinding sampleCommands 10 20 0xF81F
      (by decide) (by decide) (by decide)).1⟩

/-- C4: when `x >= 240` or `y >= 320`, both `ILI9341_DrawPixel(x,y,color)` and
`ILI9341_FillRectangle(x,y,w,h,color)` return at once: their bus trace is
empty (no pin write, no byte, no address-window set). -/
theorem out_of_range_anchor_no_trace (b : Binding) (k : Commands) (x y w h color : Nat)
    (hxy : x ≥ 240 ∨ y ≥ 320) :
    ILI9341_DrawPixel b k x y color = []
      ∧ ILI9341_FillRectangle b k x y w h color = [] := by
  constructor
  · unfold ILI9341_DrawPixel; rw [if_pos hxy]
  · unfold ILI9341_FillRectangle; rw [if_pos hxy]

/-- C4, evaluated at the anchor (240, 0). -/
theorem out_of_range_anchor_no_trace_witness :
    (240 ≥ 240 ∨ 0 ≥ 320)
      ∧ ILI9341_DrawPixel sampleBinding sampleCommands 240 0 0xFFFF = []
      ∧ ILI9341_FillRectangle sampleBinding sampleCommands 240 0 10 10 0xFFFF = [] :=
  ⟨by decide,
   out_of_range_anchor_no_trace sampleBinding sampleCommands 240 0 10 10 0xFFFF (by decide)⟩

/-- C5: for 16-bit coordinates, `ILI9341_SetAddressWindow(x0,y0,x1,y1)` is the
column-address-set command with data `x0 / 256, x0 % 256, x1 / 256, x1 % 256`,
the page-address-set command with data `y0 / 256, y0 % 256, y1 / 256, y1 % 256`
and the memory-write command: three commands and eight data bytes, eleven
bytes in all, each data pair being the big-endian encoding of its coordinate
(`hi * 256 + lo` gives it back).  For (10,20,50,60) the column bytes are
`00 0A 00 32` and the page bytes `00 14 00 3C`. -/
theorem SetAddressWindow_trace (b : Binding) (k : Commands) (x0 y0 x1 y1 : Nat)
    (hx0 : x0 < 65536) (hy0 : y0 < 65536) (hx1 : x1 < 65536) (hy1 : y1 < 65536) :
    ILI9341_SetAddressWindow b k x0 y0 x1 y1
        = ILI9341_WriteCommand b k.ILI9341_CASET
          ++ ILI9341_WriteData b (x0 / 256) ++ ILI9341_WriteData b (x0 % 256)
          ++ ILI9341_WriteData b (x1 / 256) ++ ILI9341_WriteData b (x1 % 256)
          ++ ILI9341_WriteCommand b k.ILI9341_PASET
          ++ ILI9341_WriteData b (y0 / 256) ++ ILI9341_WriteData b (y0 % 256)
          ++ ILI9341_WriteData b (y1 / 256) ++ ILI9341_WriteData b (y1 % 256)
          ++ ILI9341_WriteCommand b k.ILI9341_RAMWR
      ∧ spiBytes (ILI9341_SetAddressWindow b k x0 y0 x1 y1)
          = [ k.ILI9341_CASET % 256, x0 / 256, x0 % 256, x1 / 256, x1 % 256,
              k.ILI9341_PASET % 256, y0 / 256, y0 % 256, y1 / 256, y1 % 256,
              k.ILI9341_RAMWR % 256 ]
      ∧ (x0 / 256) * 256 + x0 % 256 = x0 ∧ (x1 / 256) * 256 + x1 % 256 = x1
      ∧ (y0 / 256) * 256 + y0 % 256 = y0 ∧ (y1 / 256) * 256 + y1 % 256 = y1
      ∧ spiBytes (ILI9341_SetAddressWindow b k 10 20 50 60)
          = [ k.ILI9341_CASET % 256, 0x00, 0x0A, 0x00, 0x32,
              k.ILI9341_PASET % 256, 0x00, 0x14, 0x00, 0x3C,
              k.ILI9341_RAMWR % 256 ] := by
  have a0 : x0 / 256 % 256 = x0 / 256 := by omega
  have a1 : x1 / 256 % 256 = x1 / 256 := by omega
  have a2 : y0 / 256 % 256 = y0 / 256 := by omega
  have a3 : y1 / 256 % 256 = y1 / 256 := by omega
  refine ⟨?_, ?_, by omega, by omega, by omega, by omega, ?_⟩
  · simp only [ILI9341_SetAddressWindow, and_255, shr_8]
  · simp [ILI9341_SetAddressWindow, spiBytes_append, spiBytes_WriteData,
      spiBytes_WriteCommand, and_255, shr_8, a0, a1, a2, a3]
  · simp [ILI9341_SetAddressWindow, spiBytes_append, spiBytes_WriteData,
      spiBytes_WriteCommand, and_255, shr_8]

/-- C5, evaluated at (10, 20, 50, 60) with the data-sheet command codes. -/
theorem SetAddressWindow_trace_witness :
    (10 < 65536 ∧ 20 < 65536 ∧ 50 < 65536 ∧ 60 < 65536)
      ∧ spiBytes (ILI9341_SetAddressWindow sampleBinding sampleCommands 10 20 50 60)
          = [0x2A, 0x00, 0x0A, 0x00, 0x32, 0x2B, 0x00, 0x14, 0x00, 0x3C, 0x2C] :=
  ⟨by decide,
   (SetAddressWindow_trace sampleBinding sampleCommands 10 20 50 60
      (by decide) (by decide) (by decide) (by decide)).2.1⟩

/-- C6: for a 16-bit colour, the trace of `ILI9341_FillScreen(color)` is the
trace of `ILI9341_SetAddressWindow(0,0,239,319)` followed by exactly
`240 * 320 = 76800` two-byte writes, whose 153600 transmitted bytes are 76800
copies of `color / 256, color % 256`. -/
theorem FillScreen_trace (b : Binding) (k : Commands) (color : Nat) (hc : color < 65536) :
    ILI9341_FillScreen b k color
        = ILI9341_SetAddressWindow b k 0 0 239 319
          ++ (List.replicate 76800
                (ILI9341_WriteData b (color >>> 8) ++ ILI9341_WriteData b (color &&& 0xFF))).flatten
      ∧ 240 * 320 = 76800
      ∧ spiBytes (List.replicate 76800
            (ILI9341_WriteData b (color >>> 8) ++ ILI9341_WriteData b (color &&& 0xFF))).flatten
          = (List.replicate 76800 [color / 256, color % 256]).flatten
      ∧ (List.replicate 76800 [color / 256, color % 256]).flatten.length = 153600 := by
  have h3 : color / 256 % 256 = color / 256 := by omega
  have hp : spiBytes (ILI9341_WriteData b (color >>> 8) ++ ILI9341_WriteData b (color &&& 0xFF))
      = [color / 256, color % 256] := by
    simp [spiBytes_append, spiBytes_WriteData, and_255, shr_8, h3]
  have hrep : ∀ n : Nat, spiBytes (List.replicate n
        (ILI9341_WriteData b (color >>> 8) ++ ILI9341_WriteData b (color &&& 0xFF))).flatten
      = (List.replicate n [color / 256, color % 256]).flatten := by
    intro n
    induction n with
    | zero => rfl
    | succ n ih => rw [List.replicate_succ, List.flatten_cons, spiBytes_append, ih, hp,
        List.replicate_succ, List.flatten_cons]
  have hlen : ∀ n : Nat,
      (List.replicate n [color / 256, color % 256]).flatten.length = 2 * n := by
    intro n
    induction n with
    | zero => rfl
    | succ n ih => rw [List.replicate_succ, List.flatten_cons, List.length_append, ih]
                   simp only [List.length_cons, List.length_nil]; omega
  have hmul : 240 * 320 = 76800 := by norm_num
  refine ⟨?_, hmul, hrep 76800, hlen 76800⟩
  unfold ILI9341_FillScreen
  rw [forLoop_const, hmul, writePixel]

/-- C6, evaluated for the colour 0xF800. -/
theorem FillScreen_trace_witness :
    0xF800 < 65536
      ∧ ILI9341_FillScreen sampleBinding sampleCommands 0xF800
          = ILI9341_SetAddressWindow sampleBinding sampleCommands 0 0 239 319
            ++ (List.replicate 76800
                  (ILI9341_WriteData sampleBinding (0xF800 >>> 8)
                    ++ ILI9341_WriteData sampleBinding (0xF800 &&& 0xFF))).flatten :=
  ⟨by decide, (FillScreen_trace sampleBinding sampleCommands 0xF800 (by decide)).1⟩

/-! ## Glyph rasterisation -/

theorem fontRead_valid (font : List Nat) (idx : Int) (h0 : 0 ≤ idx)
    (h1 : idx < (font.length : Int)) :
    fontRead font idx = some (font.getD idx.toNat 0 % 256) := by
  unfold fontRead
  rw [if_pos ⟨h0, h1⟩]

theorem DrawChar_bit_eq (x y i j line fg bg size : Nat) :
    DrawChar_bit x y i j line fg bg size = bitCalls x y i j (line.testBit 0) fg bg size := by
  unfold DrawChar_bit bitCalls glyphCall
  rw [and_1, Nat.testBit_zero]
  have h2 : line % 2 = 0 ∨ line % 2 = 1 := by omega
  by_cases h3 : bg = fg <;> by_cases h4 : size = 1 <;> rcases h2 with h | h <;>
    simp [h, h3, h4]

theorem DrawChar_column_eq (x y i fg bg size : Nat) (n : Nat) :
    ∀ line j : Nat, line < 256 →
      DrawChar_column x y i fg bg size line j n
        = (List.range n).flatMap
            (fun t => bitCalls x y i (j + t) (line.testBit t) fg bg size) := by
  induction n with
  | zero => intro line j _; rfl
  | succ n ih =>
    intro line j hl
    have hs : (line >>> 1) % 256 = line / 2 := by
      rw [Nat.shiftRight_eq_div_pow]; omega
    rw [DrawChar_column, hs, ih (line / 2) (j + 1) (by omega), DrawChar_bit_eq,
      List.range_succ_eq_map, List.flatMap_cons, List.flatMap_def, List.flatMap_def,
      List.map_map]
    congr 2
    apply List.map_congr_left
    intro t _
    simp only [Function.comp, Nat.succ_eq_add_one, Nat.testBit_div_two]
    congr 1
    omega

theorem DrawChar_columns_eq (font : List Nat) (x y : Nat) (c : Int) (fg bg size : Nat)
    (n : Nat) :
    ∀ i : Nat, 0 ≤ (c - 32) * 5 + (i : Int) →
      (c - 32) * 5 + (i : Int) + (n : Int) ≤ (font.length : Int) →
      DrawChar_columns font x y c fg bg size i n
        = some ((List.range n).flatMap
            (fun t => DrawChar_column x y (i + t) fg bg size (glyphByte font c (i + t)) 0 8)) := by
  induction n with
  | zero => intro i _ _; rfl
  | succ n ih =>
    intro i h0 h1
    rw [DrawChar_columns, fontRead_valid font _ h0 (by omega)]
    simp only
    rw [ih (i + 1) (by push_cast; omega) (by push_cast; omega)]
    simp only
    rw [List.range_succ_eq_map, List.flatMap_cons, List.flatMap_def, List.flatMap_def,
      List.map_map]
    congr 2
    congr 1
    apply List.map_congr_left
    intro t _
    simp only [Function.comp, Nat.succ_eq_add_one]
    have : i + 1 + t = i + (t + 1) := by omega
    rw [this]

theorem glyphByte_lt (font : List Nat) (c : Int) (i : Nat) : glyphByte font c i < 256 := by
  unfold glyphByte; omega

/-- For a character whose five bytes lie inside the table, `ILI9341_DrawChar`
makes the calls of `bitCalls`, column by column and bit by bit. -/
theorem DrawChar_calls_eq (font : List Nat) (x y : Nat) (c : Int) (fg bg size : Nat)
    (hlo : 32 ≤ c) (hhi : (c - 32) * 5 + 4 < (font.length : Int)) :
    DrawChar_calls font x y c fg bg size
      = some ((List.range 5).flatMap (fun i => (List.range 8).flatMap
          (fun j => bitCalls x y i j ((glyphByte font c i).testBit j) fg bg size))) := by
  unfold DrawChar_calls
  rw [DrawChar_columns_eq font x y c fg bg size 5 0 (by push_cast; omega) (by push_cast; omega)]
  congr 1
  apply List.flatMap_congr
  intro i _
  rw [DrawChar_column_eq x y _ fg bg size 8 _ 0 (glyphByte_lt font c _)]
  simp only [Nat.zero_add]

theorem runCalls_append (b : Binding) (k : Commands) (s t : List DrawCall) :
    runCalls b k (s ++ t) = runCalls b k s ++ runCalls b k t := by
  simp [runCalls]

theorem runCalls_flatMap {α : Type} (b : Binding) (k : Commands) (l : List α)
    (f : α → List DrawCall) :
    runCalls b k (l.flatMap f) = l.flatMap (fun a => runCalls b k (f a)) := by
  induction l with
  | nil => rfl
  | cons a l ih => rw [List.flatMap_cons, runCalls_append, ih, List.flatMap_cons]

theorem glyphByte_testBit (font : List Nat) (c : Int) (i j : Nat) (hlo : 32 ≤ c) (hj : j < 8) :
    (glyphByte font c i).testBit j
      = (font.getD (((c - 32) * 5).toNat + i) 0).testBit j := by
  have hidx : ((c - 32) * 5 + (i : Int)).toNat = ((c - 32) * 5).toNat + i := by omega
  have h256 : (256 : Nat) = 2 ^ 8 := by norm_num
  unfold glyphByte
  rw [hidx, h256, Nat.testBit_mod_two_pow]
  simp [hj]

/-- C7: at size 1 with `fg != bg`, for a character whose five font bytes lie
inside the table and a position with `x + 4`, `y + 7` below `2^16`, the trace of
`ILI9341_DrawChar(x,y,c,fg,bg,1)` is the concatenation, for column `i = 0..4`
and within each column for bit `j = 0..7` (least-significant first), of
`ILI9341_DrawPixel(x+i, y+j, col)`, where `col` is `fg` when bit `j` of
`font[(c-32)*5+i]` is set and `bg` otherwise.  For `'A'` (code 65) the offset
is `(65-32)*5 = 165`. -/
theorem DrawChar_size1_trace (b : Binding) (k : Commands) (font : List Nat) (x y : Nat)
    (c : Int) (fg bg : Nat)
    (hlo : 32 ≤ c) (hhi : (c - 32) * 5 + 4 < (font.length : Int)) (hne : fg ≠ bg)
    (hx : x + 4 < 65536) (hy : y + 7 < 65536) :
    ILI9341_DrawChar b k font x y c fg bg 1
        = some ((List.range 5).flatMap (fun i => (List.range 8).flatMap (fun j =>
            ILI9341_DrawPixel b k (x + i) (y + j)
              (if (font.getD (((c - 32) * 5).toNat + i) 0).testBit j then fg else bg))))
      ∧ (((65 : Int) - 32) * 5).toNat = 165 := by
  refine ⟨?_, by decide⟩
  unfold ILI9341_DrawChar
  rw [DrawChar_calls_eq font x y c fg bg 1 hlo hhi, Option.map_some', runCalls_flatMap]
  congr 1
  apply List.flatMap_congr
  intro i hi
  rw [runCalls_flatMap]
  apply List.flatMap_congr
  intro j hj
  have hi5 : i < 5 := List.mem_range.mp hi
  have hj8 : j < 8 := List.mem_range.mp hj
  have hxi : toU16 ((x : Int) + (i : Int)) = x + i := by unfold toU16; omega
  have hyj : toU16 ((y : Int) + (j : Int)) = y + j := by unfold toU16; omega
  have hbg : bg ≠ fg := fun h => hne h.symm
  rw [glyphByte_testBit font c i j hlo hj8]
  cases (font.getD (((c - 32) * 5).toNat + i) 0).testBit j <;>
    simp [bitCalls, glyphCall, runCalls, DrawCall.run, hxi, hyj, hbg]

theorem sampleFont_length : sampleFont.length = 170 := by
  unfold sampleFont
  rw [List.length_append, List.length_replicate]
  rfl

/-- C7, evaluated: `drawChar(0,0,'A',0xFFFF,0x0000,1)` on the sample font. -/
theorem DrawChar_size1_trace_witness :
    ((32 : Int) ≤ 65 ∧ ((65 : Int) - 32) * 5 + 4 < (sampleFont.length : Int)
        ∧ (0xFFFF : Nat) ≠ 0x0000 ∧ 0 + 4 < 65536 ∧ 0 + 7 < 65536)
      ∧ ILI9341_DrawChar sampleBinding sampleCommands sampleFont 0 0 65 0xFFFF 0x0000 1
          = some ((List.range 5).flatMap (fun i => (List.range 8).flatMap (fun j =>
              ILI9341_DrawPixel sampleBinding sampleCommands (0 + i) (0 + j)
                (if (sampleFont.getD ((((65 : Int) - 32) * 5).toNat + i) 0).testBit j
                  then 0xFFFF else 0x0000)))) :=
  ⟨⟨by decide, by simp only [sampleFont_length]; decide, by decide, by decide, by decide⟩,
   (DrawChar_size1_trace sampleBinding sampleCommands sampleFont 0 0 65 0xFFFF 0x0000
      (by decide) (by simp only [sampleFont_length]; decide) (by decide) (by decide) (by decide)).1⟩

theorem flatMap_ite_singleton {α β : Type} (l : List α) (p : α → Bool) (f : α → β) :
    l.flatMap (fun a => if p a then [f a] else []) = (l.filter p).map f := by
  induction l with
  | nil => rfl
  | cons a l ih =>
    rw [List.flatMap_cons, ih, List.filter_cons]
    cases p a <;> simp

theorem bitCalls_same_colour (x y i j : Nat) (bit : Bool) (fg size : Nat) :
    bitCalls x y i j bit fg fg size = if bit then [glyphCall x y i j fg size] else [] := by
  unfold bitCalls
  cases bit <;> simp

theorem length_flatMap_sum {α β : Type} (l : List α) (f : α → List β) :
    (l.flatMap f).length = (l.map (fun a => (f a).length)).sum := by
  induction l with
  | nil => rfl
  | cons a l ih => rw [List.flatMap_cons, List.length_append, ih, List.map_cons, List.sum_cons]

/-- C8: with foreground equal to background, `ILI9341_DrawChar(x,y,c,fg,fg,size)`
on a character with a valid table entry makes exactly one draw call
(`ILI9341_DrawPixel` at size 1, `ILI9341_FillRectangle` otherwise, in colour
`fg`) per set bit of the five glyph bytes, in column/bit order, and none for a
clear bit; the number of calls is the number of 1 bits of the glyph, and a
glyph whose five bytes are zero gives the empty bus trace. -/
theorem DrawChar_same_colour (b : Binding) (k : Commands) (font : List Nat) (x y : Nat)
    (c : Int) (fg size : Nat)
    (hlo : 32 ≤ c) (hhi : (c - 32) * 5 + 4 < (font.length : Int)) :
    DrawChar_calls font x y c fg fg size
        = some ((List.range 5).flatMap (fun i =>
            ((List.range 8).filter (fun j => (glyphByte font c i).testBit j)).map
              (fun j => glyphCall x y i j fg size)))
      ∧ ((List.range 5).flatMap (fun i =>
            ((List.range 8).filter (fun j => (glyphByte font c i).testBit j)).map
              (fun j => glyphCall x y i j fg size))).length
          = ((List.range 5).map (fun i => popCount8 (glyphByte font c i))).sum
      ∧ ILI9341_DrawChar b k font x y c fg fg size
          = some (runCalls b k ((List.range 5).flatMap (fun i =>
              ((List.range 8).filter (fun j => (glyphByte font c i).testBit j)).map
                (fun j => glyphCall x y i j fg size))))
      ∧ ((∀ i, i < 5 → glyphByte font c i = 0) →
          ILI9341_DrawChar b k font x y c fg fg size = some []) := by
  have hcalls : DrawChar_calls font x y c fg fg size
        = some ((List.range 5).flatMap (fun i =>
            ((List.range 8).filter (fun j => (glyphByte font c i).testBit j)).map
              (fun j => glyphCall x y i j fg size))) := by
    rw [DrawChar_calls_eq font x y c fg fg size hlo hhi]
    congr 1
    apply List.flatMap_congr
    intro i _
    simp only [bitCalls_same_colour]
    exact flatMap_ite_singleton (List.range 8) (fun j => (glyphByte font c i).testBit j)
      (fun j => glyphCall x y i j fg size)
  refine ⟨hcalls, ?_, ?_, ?_⟩
  · rw [length_flatMap_sum]
    congr 1
    apply List.map_congr_left
    intro i _
    rw [List.length_map, popCount8]
  · unfold ILI9341_DrawChar
    rw [hcalls, Option.map_some']
  · intro hz
    unfold ILI9341_DrawChar
    rw [hcalls, Option.map_some']
    congr 1
    have hnil : (List.range 5).flatMap (fun i =>
            ((List.range 8).filter (fun j => (glyphByte font c i).testBit j)).map
              (fun j => glyphCall x y i j fg size)) = [] := by
      rw [List.flatMap_eq_nil_iff]
      intro i hi
      rw [hz i (List.mem_range.mp hi)]
      simp
    rw [hnil]
    rfl

/-- C8, evaluated: the letter `A` of the sample font at size 2 with
`fg = bg = 0x07E0`. -/
theorem DrawChar_same_colour_witness :
    ((32 : Int) ≤ 65 ∧ ((65 : Int) - 32) * 5 + 4 < (sampleFont.length : Int))
      ∧ DrawChar_calls sampleFont 10 20 65 0x07E0 0x07E0 2
          = some ((List.range 5).flatMap (fun i =>
              ((List.range 8).filter (fun j => (glyphByte sampleFont 65 i).testBit j)).map
                (fun j => glyphCall 10 20 i j 0x07E0 2))) :=
  ⟨⟨by decide, by simp only [sampleFont_length]; decide⟩,
   (DrawChar_same_colour sampleBinding sampleCommands sampleFont 10 20 65 0x07E0 2
      (by decide) (by simp only [sampleFont_length]; decide)).1⟩

/-! ## Strings -/

theorem DrawString_trace_aux (b : Binding) (k : Commands) (font : List Nat) (y fg bg N : Nat)
    (s : List Int) :
    ∀ x : Nat, x < 65536 → (∀ ch ∈ s, ch ≠ 0) →
      ILI9341_DrawString b k font x y s fg bg N
        = sequenceTraces ((List.range s.length).map (fun i =>
            ILI9341_DrawChar b k font ((x + 6 * N * i) % 65536) y (s.getD i 0) fg bg N)) := by
  induction s with
  | nil => intro x _ _; rfl
  | cons c str ih =>
    intro x hx hnul
    have hc : c ≠ 0 := hnul c (List.mem_cons_self c str)
    have hstr : ∀ ch ∈ str, ch ≠ 0 := fun ch h => hnul ch (List.mem_cons_of_mem c h)
    have hcur : toU16 ((x : Int) + ((6 * N : Nat) : Int)) = (x + 6 * N) % 65536 := by
      rw [← Nat.cast_add, toU16_natCast]
    have hx0 : (x + 6 * N * 0) % 65536 = x := by
      rw [Nat.mul_zero, Nat.add_zero]; exact Nat.mod_eq_of_lt hx
    have hstep : ∀ i : Nat,
        ((x + 6 * N) % 65536 + 6 * N * i) % 65536 = (x + 6 * N * (i + 1)) % 65536 := by
      intro i
      rw [Nat.mul_succ]
      generalize 6 * N * i = m
      omega
    rw [ILI9341_DrawString, if_neg hc, hcur,
      ih ((x + 6 * N) % 65536) (Nat.mod_lt _ (by decide)) hstr,
      List.length_cons, List.range_succ_eq_map, List.map_cons, List.map_map, hx0]
    have hmap : (List.range str.length).map ((fun i =>
            ILI9341_DrawChar b k font ((x + 6 * N * i) % 65536) y ((c :: str).getD i 0) fg bg N)
              ∘ Nat.succ)
        = (List.range str.length).map (fun i =>
            ILI9341_DrawChar b k font (((x + 6 * N) % 65536 + 6 * N * i) % 65536) y
              (str.getD i 0) fg bg N) := by
      apply List.map_congr_left
      intro i _
      simp only [Function.comp, Nat.succ_eq_add_one, hstep, List.getD_cons_succ]
    rw [hmap]
    simp only [List.getD_cons_zero]
    cases ILI9341_DrawChar b k font x y c fg bg N <;> rfl
theorem sequenceTraces_isSome (l : List (Option Trace)) (h : ∀ o ∈ l, o.isSome = true) :
    (sequenceTraces l).isSome = true := by
  induction l with
  | nil => rfl
  | cons o l ih =>
    have ho := h o (List.mem_cons_self o l)
    have hl := ih (fun o' h' => h o' (List.mem_cons_of_mem o h'))
    cases o with
    | none => simp at ho
    | some t =>
      rw [sequenceTraces]
      cases hr : sequenceTraces l with
      | none => rw [hr] at hl; simp at hl
      | some r => rfl

theorem DrawChar_isSome (b : Binding) (k : Commands) (font : List Nat) (x y : Nat)
    (c : Int) (fg bg size : Nat)
    (hlo : 32 ≤ c) (hhi : (c - 32) * 5 + 4 < (font.length : Int)) :
    (ILI9341_DrawChar b k font x y c fg bg size).isSome = true := by
  unfold ILI9341_DrawChar
  rw [DrawChar_calls_eq font x y c fg bg size hlo hhi]
  rfl

/-- C9: for a string `s` of length `n` without an embedded NUL and a 16-bit
start `x`, the trace of `ILI9341_DrawString` is the concatenation, for
`k = 0..n-1` in order, of the traces of
`ILI9341_DrawChar(x_k, y, s[k], fg, bg, N)` with `x_k = (x + 6*N*k) mod 2^16`:
the cursor advances by exactly `6*N` per character, and `y`, the colours and
the size are the same for every character.  The result is defined whenever
every character has a valid table entry, and the empty string gives the empty
trace. -/
theorem DrawString_trace (b : Binding) (k : Commands) (font : List Nat) (x y : Nat)
    (s : List Int) (fg bg N : Nat) (hx : x < 65536) (hnul : ∀ ch ∈ s, ch ≠ 0) :
    ILI9341_DrawString b k font x y s fg bg N
        = sequenceTraces ((List.range s.length).map (fun i =>
            ILI9341_DrawChar b k font ((x + 6 * N * i) % 65536) y (s.getD i 0) fg bg N))
      ∧ ((∀ ch ∈ s, 32 ≤ ch ∧ (ch - 32) * 5 + 4 < (font.length : Int)) →
          (ILI9341_DrawString b k font x y s fg bg N).isSome = true)
      ∧ ILI9341_DrawString b k font x y [] fg bg N = some [] := by
  have hmain := DrawString_trace_aux b k font y fg bg N s x hx hnul
  refine ⟨hmain, ?_, rfl⟩
  intro hvalid
  rw [hmain]
  apply sequenceTraces_isSome
  intro o ho
  rw [List.mem_map] at ho
  obtain ⟨i, hi, rfl⟩ := ho
  have hil : i < s.length := List.mem_range.mp hi
  have hmem : s.getD i 0 ∈ s := by
    rw [List.getD_eq_getElem s 0 hil]
    exact List.getElem_mem hil
  exact DrawChar_isSome b k font _ y _ fg bg N (hvalid _ hmem).1 (hvalid _ hmem).2

/-- C9, evaluated on the string `AA` at (10, 20), size 2. -/
theorem DrawString_trace_witness :
    ((10 : Nat) < 65536 ∧ ∀ ch ∈ ([65, 65] : List Int), ch ≠ 0)
      ∧ ILI9341_DrawString sampleBinding sampleCommands sampleFont 10 20 [65, 65] 0xFFFF 0 2
          = sequenceTraces ((List.range ([65, 65] : List Int).length).map (fun i =>
              ILI9341_DrawChar sampleBinding sampleCommands sampleFont ((10 + 6 * 2 * i) % 65536)
                20 (([65, 65] : List Int).getD i 0) 0xFFFF 0 2)) :=
  ⟨⟨by decide, by decide⟩,
   (DrawString_trace sampleBinding sampleCommands sampleFont 10 20 [65, 65] 0xFFFF 0 2
      (by decide) (by decide)).1⟩

/-! ## Text past the panel edge -/

/-- C10 (counterexample): with the cursor at `x = 65535 >= 240`, size 1 and
`fg != bg`, column 1 of the glyph is drawn at `(uint16_t)(65535 + 1) = 0`, so
`ILI9341_DrawChar` on the blank glyph of character 32 draws on the panel:
its trace is not empty. -/
theorem DrawChar_wraps_onto_panel :
    ((32 : Int) ≤ 32 ∧ ((32 : Int) - 32) * 5 + 4 < (sampleFont.length : Int)
        ∧ 1 ≥ 1 ∧ 65535 ≥ 240)
      ∧ ILI9341_DrawChar sampleBinding sampleCommands sampleFont 65535 0 32 0xFFFF 0 1
          ≠ some [] := by
  have hhi : ((32 : Int) - 32) * 5 + 4 < (sampleFont.length : Int) := by
    simp only [sampleFont_length]; decide
  refine ⟨⟨by decide, hhi, by decide, by decide⟩, ?_⟩
  intro h
  unfold ILI9341_DrawChar at h
  rw [DrawChar_calls_eq sampleFont 65535 0 32 0xFFFF 0 1 (by decide) hhi, Option.map_some'] at h
  have h1 := Option.some.inj h
  unfold runCalls at h1
  rw [List.flatten_eq_nil_iff] at h1
  have key : DrawCall.pixel 0 0 (if (glyphByte sampleFont 32 1).testBit 0 then 0xFFFF else 0)
      ∈ (List.range 5).flatMap (fun i => (List.range 8).flatMap
          (fun j => bitCalls 65535 0 i j ((glyphByte sampleFont 32 i).testBit j) 0xFFFF 0 1)) := by
    rw [List.mem_flatMap]
    refine ⟨1, by decide, ?_⟩
    rw [List.mem_flatMap]
    refine ⟨0, by decide, ?_⟩
    cases (glyphByte sampleFont 32 1).testBit 0 <;> simp [bitCalls, glyphCall, toU16]
  have h2 := h1 _ (List.mem_map_of_mem (DrawCall.run sampleBinding sampleCommands) key)
  simp [DrawCall.run, ILI9341_DrawPixel, ILI9341_SetAddressWindow, ILI9341_WriteCommand] at h2

theorem DrawPixel_off_panel (b : Binding) (k : Commands) (x y color : Nat)
    (h : x ≥ 240 ∨ y ≥ 320) : ILI9341_DrawPixel b k x y color = [] := by
  unfold ILI9341_DrawPixel; rw [if_pos h]

theorem FillRectangle_off_panel (b : Binding) (k : Commands) (x y w h color : Nat)
    (hxy : x ≥ 240 ∨ y ≥ 320) : ILI9341_FillRectangle b k x y w h color = [] := by
  unfold ILI9341_FillRectangle; rw [if_pos hxy]

theorem runCalls_eq_nil (b : Binding) (k : Commands) (l : List DrawCall)
    (h : ∀ call ∈ l, DrawCall.run b k call = []) : runCalls b k l = [] := by
  unfold runCalls
  rw [List.flatten_eq_nil_iff]
  intro t ht
  rw [List.mem_map] at ht
  obtain ⟨call, hc, rfl⟩ := ht
  exact h call hc

theorem glyphCall_off_panel (b : Binding) (k : Commands) (x y i j color size : Nat)
    (hi : i < 5) (hx : 240 ≤ x) (hw : x + 4 * size < 65536) :
    DrawCall.run b k (glyphCall x y i j color size) = [] := by
  have him : i * size ≤ 4 * size := Nat.mul_le_mul_right size (by omega)
  unfold glyphCall
  split
  · next h1 =>
    subst h1
    have hxi : toU16 ((x : Int) + (i : Int)) = x + i := by unfold toU16; omega
    rw [DrawCall.run, hxi]
    exact DrawPixel_off_panel b k _ _ _ (Or.inl (by omega))
  · have hxi : toU16 ((x : Int) + ((i * size : Nat) : Int)) = x + i * size := by
      unfold toU16; omega
    rw [DrawCall.run, hxi]
    exact FillRectangle_off_panel b k _ _ _ _ _ (Or.inl (by omega))

theorem DrawChar_off_panel_aux (b : Binding) (k : Commands) (font : List Nat) (x y : Nat)
    (c : Int) (fg bg size : Nat)
    (hlo : 32 ≤ c) (hhi : (c - 32) * 5 + 4 < (font.length : Int))
    (hx : 240 ≤ x) (hw : x + 4 * size < 65536) :
    ILI9341_DrawChar b k font x y c fg bg size = some [] := by
  unfold ILI9341_DrawChar
  rw [DrawChar_calls_eq font x y c fg bg size hlo hhi, Option.map_some']
  congr 1
  apply runCalls_eq_nil
  intro call hcall
  rw [List.mem_flatMap] at hcall
  obtain ⟨i, hi, hcall⟩ := hcall
  rw [List.mem_flatMap] at hcall
  obtain ⟨j, _, hcall⟩ := hcall
  have hi5 : i < 5 := List.mem_range.mp hi
  unfold bitCalls at hcall
  split at hcall
  · rw [List.mem_singleton] at hcall
    rw [hcall]; exact glyphCall_off_panel b k x y i j fg size hi5 hx hw
  · split at hcall
    · rw [List.mem_singleton] at hcall
      rw [hcall]; exact glyphCall_off_panel b k x y i j bg size hi5 hx hw
    · simp at hcall

theorem DrawString_off_panel_aux (b : Binding) (k : Commands) (font : List Nat)
    (y fg bg N : Nat) (hN : 1 ≤ N) (s : List Int) :
    ∀ x : Nat, 240 ≤ x → x + 6 * N * s.length ≤ 65536 →
      (∀ ch ∈ s, 32 ≤ ch ∧ (ch - 32) * 5 + 4 < (font.length : Int)) →
      ILI9341_DrawString b k font x y s fg bg N = some [] := by
  induction s with
  | nil => intro x _ _ _; rfl
  | cons c str ih =>
    intro x hx hlen hvalid
    have hv := hvalid c (List.mem_cons_self c str)
    have hstr : ∀ ch ∈ str, 32 ≤ ch ∧ (ch - 32) * 5 + 4 < (font.length : Int) :=
      fun ch h => hvalid ch (List.mem_cons_of_mem c h)
    have hc : c ≠ 0 := by omega
    rw [List.length_cons, Nat.mul_succ] at hlen
    have hchar := DrawChar_off_panel_aux b k font x y c fg bg N hv.1 hv.2 hx (by omega)
    have hcur : toU16 ((x : Int) + ((6 * N : Nat) : Int)) = (x + 6 * N) % 65536 := by
      rw [← Nat.cast_add, toU16_natCast]
    rw [ILI9341_DrawString, if_neg hc, hchar, hcur]
    simp only
    cases str with
    | nil => rfl
    | cons d rest =>
      rw [List.length_cons, Nat.mul_succ] at hlen
      have hlt : x + 6 * N < 65536 := by omega
      rw [Nat.mod_eq_of_lt hlt,
        ih (x + 6 * N) (by omega) (by rw [List.length_cons, Nat.mul_succ]; omega) hstr]
      rfl

/-- C10 (amended): for a character with a valid table entry, size `>= 1` and a
cursor `x >= 240` whose glyph columns do not wrap around 16 bits
(`x + 4*size < 2^16`), `ILI9341_DrawChar(x,y,c,fg,bg,size)` has an empty bus
trace, every `ILI9341_DrawPixel` / `ILI9341_FillRectangle` call being rejected
by the bounds check; hence `ILI9341_DrawString` started at such an `x` draws
nothing for a string of valid characters whose cursors stay below `2^16`
(`x + 6*size*n <= 2^16`). -/
theorem DrawChar_off_panel (b : Binding) (k : Commands) (font : List Nat) (x y : Nat)
    (c : Int) (fg bg size : Nat) (s : List Int)
    (hlo : 32 ≤ c) (hhi : (c - 32) * 5 + 4 < (font.length : Int))
    (hsize : 1 ≤ size) (hx : 240 ≤ x) (hw : x + 4 * size < 65536) :
    ILI9341_DrawChar b k font x y c fg bg size = some []
      ∧ (x + 6 * size * s.length ≤ 65536 →
          (∀ ch ∈ s, 32 ≤ ch ∧ (ch - 32) * 5 + 4 < (font.length : Int)) →
          ILI9341_DrawString b k font x y s fg bg size = some []) :=
  ⟨DrawChar_off_panel_aux b k font x y c fg bg size hlo hhi hx hw,
   fun hlen hvalid => DrawString_off_panel_aux b k font y fg bg size hsize s x hx hlen hvalid⟩

/-- C10 (amended), evaluated at the cursor `x = 240`, size 2. -/
theorem DrawChar_off_panel_witness :
    ((32 : Int) ≤ 65 ∧ ((65 : Int) - 32) * 5 + 4 < (sampleFont.length : Int)
        ∧ 1 ≤ 2 ∧ 240 ≤ 240 ∧ 240 + 4 * 2 < 65536)
      ∧ ILI9341_DrawChar sampleBinding sampleCommands sampleFont 240 0 65 0xFFFF 0 2 = some [] :=
  ⟨⟨by decide, by simp only [sampleFont_length]; decide, by decide, by decide, by decide⟩,
   (DrawChar_off_panel sampleBinding sampleCommands sampleFont 240 0 65 0xFFFF 0 2 [65, 65]
      (by decide) (by simp only [sampleFont_length]; decide) (by decide) (by decide)
      (by decide)).1⟩

/-! ## Command/data protocol and initialisation -/

/-- C11: for every byte `v`, `ILI9341_WriteCommand(v)` is exactly
[data/command pin low, chip-select low, transmit `v`, chip-select high] and
`ILI9341_WriteData(v)` is exactly [data/command pin high, chip-select low,
transmit `v`, chip-select high]; each transmits exactly one byte, and the two
traces differ only in the level written to the data/command pin. -/
theorem WriteCommand_WriteData_trace (b : Binding) (v : Nat) (hv : v < 256) :
    ILI9341_WriteCommand b v
        = [ Event.gpio b.dc_port b.dc_pin false, Event.gpio b.cs_port b.cs_pin false,
            Event.spi b.hspi v, Event.gpio b.cs_port b.cs_pin true ]
      ∧ ILI9341_WriteData b v
        = [ Event.gpio b.dc_port b.dc_pin true, Event.gpio b.cs_port b.cs_pin false,
            Event.spi b.hspi v, Event.gpio b.cs_port b.cs_pin true ]
      ∧ spiBytes (ILI9341_WriteCommand b v) = [v]
      ∧ spiBytes (ILI9341_WriteData b v) = [v]
      ∧ (ILI9341_WriteCommand b v).tail = (ILI9341_WriteData b v).tail
      ∧ (ILI9341_WriteCommand b v).head? = some (Event.gpio b.dc_port b.dc_pin false)
      ∧ (ILI9341_WriteData b v).head? = some (Event.gpio b.dc_port b.dc_pin true) := by
  have hm : v % 256 = v := Nat.mod_eq_of_lt hv
  refine ⟨?_, ?_, ?_, ?_, rfl, rfl, rfl⟩
  · unfold ILI9341_WriteCommand; rw [hm]
  · unfold ILI9341_WriteData; rw [hm]
  · rw [spiBytes_WriteCommand, hm]
  · rw [spiBytes_WriteData, hm]

/-- C11, evaluated for the byte 0x2C on the sample binding. -/
theorem WriteCommand_WriteData_trace_witness :
    0x2C < 256
      ∧ ILI9341_WriteCommand sampleBinding 0x2C
          = [ Event.gpio 2 32 false, Event.gpio 2 16 false, Event.spi 1 0x2C,
              Event.gpio 2 16 true ]
      ∧ ILI9341_WriteData sampleBinding 0x2C
          = [ Event.gpio 2 32 true, Event.gpio 2 16 false, Event.spi 1 0x2C,
              Event.gpio 2 16 true ] :=
  ⟨by decide,
   (WriteCommand_WriteData_trace sampleBinding 0x2C (by decide)).1,
   (WriteCommand_WriteData_trace sampleBinding 0x2C (by decide)).2.1⟩

theorem delays_nil : delays [] = [] := rfl

theorem delays_cons_delay (ms : Nat) (t : Trace) :
    delays (Event.delay ms :: t) = ms :: delays t := rfl

theorem delays_cons_gpio (p n : Nat) (l : Bool) (t : Trace) :
    delays (Event.gpio p n l :: t) = delays t := rfl

theorem delays_cons_spi (h v : Nat) (t : Trace) :
    delays (Event.spi h v :: t) = delays t := rfl

theorem spiBytes_nil : spiBytes [] = [] := rfl

theorem spiBytes_cons_delay (ms : Nat) (t : Trace) :
    spiBytes (Event.delay ms :: t) = spiBytes t := rfl

theorem spiBytes_cons_gpio (p n : Nat) (l : Bool) (t : Trace) :
    spiBytes (Event.gpio p n l :: t) = spiBytes t := rfl

theorem spiBytes_cons_spi (h v : Nat) (t : Trace) :
    spiBytes (Event.spi h v :: t) = v :: spiBytes t := rfl

theorem delays_append (s t : Trace) : delays (s ++ t) = delays s ++ delays t := by
  simp [delays, List.filterMap_append]

theorem delays_WriteCommand (b : Binding) (v : Nat) : delays (ILI9341_WriteCommand b v) = [] := by
  simp [delays, ILI9341_WriteCommand]

theorem delays_WriteData (b : Binding) (v : Nat) : delays (ILI9341_WriteData b v) = [] := by
  simp [delays, ILI9341_WriteData]

/-- C12: for every set of handles (and every prior binding), `ILI9341_Init`
binds the statics to its arguments and its bus trace is exactly: reset pin low,
delay 10, reset pin high, delay 120, command SWRESET, delay 150, command PWCTR1
with data 0x23, command PWCTR2 with data 0x10, command VMCTR1 with data 0x3E
and 0x28, command VMCTR2 with data 0x86, command MADCTL with data 0x48, command
PIXFMT with data 0x55, command SLPOUT, delay 120, command DISPON, all on the
new binding: 70 HAL calls, 16 transmitted bytes (9 commands, 7 data bytes), 2
reset-pin writes and 4 delays
totalling 400 ms. -/
theorem Init_trace (k : Commands) (prior : Binding)
    (hspi cs_port cs_pin dc_port dc_pin reset_port reset_pin : Nat) :
    (ILI9341_Init k prior hspi cs_port cs_pin dc_port dc_pin reset_port reset_pin).1
        = { hspi := hspi, cs_port := cs_port, cs_pin := cs_pin, dc_port := dc_port,
            dc_pin := dc_pin, reset_port := reset_port, reset_pin := reset_pin }
      ∧ (ILI9341_Init k prior hspi cs_port cs_pin dc_port dc_pin reset_port reset_pin).2
        = [Event.gpio reset_port reset_pin false, Event.delay 10,
           Event.gpio reset_port reset_pin true, Event.delay 120]
          ++ ILI9341_WriteCommand ⟨hspi, cs_port, cs_pin, dc_port, dc_pin, reset_port, reset_pin⟩
              k.ILI9341_SWRESET
          ++ [Event.delay 150]
          ++ ILI9341_WriteCommand ⟨hspi, cs_port, cs_pin, dc_port, dc_pin, reset_port, reset_pin⟩
              k.ILI9341_PWCTR1
          ++ ILI9341_WriteData ⟨hspi, cs_port, cs_pin, dc_port, dc_pin, reset_port, reset_pin⟩ 0x23
          ++ ILI9341_WriteCommand ⟨hspi, cs_port, cs_pin, dc_port, dc_pin, reset_port, reset_pin⟩
              k.ILI9341_PWCTR2
          ++ ILI9341_WriteData ⟨hspi, cs_port, cs_pin, dc_port, dc_pin, reset_port, reset_pin⟩ 0x10
          ++ ILI9341_WriteCommand ⟨hspi, cs_port, cs_pin, dc_port, dc_pin, reset_port, reset_pin⟩
              k.ILI9341_VMCTR1
          ++ ILI9341_WriteData ⟨hspi, cs_port, cs_pin, dc_port, dc_pin, reset_port, reset_pin⟩ 0x3E
          ++ ILI9341_WriteData ⟨hspi, cs_port, cs_pin, dc_port, dc_pin, reset_port, reset_pin⟩ 0x28
          ++ ILI9341_WriteCommand ⟨hspi, cs_port, cs_pin, dc_port, dc_pin, reset_port, reset_pin⟩
              k.ILI9341_VMCTR2
          ++ ILI9341_WriteData ⟨hspi, cs_port, cs_pin, dc_port, dc_pin, reset_port, reset_pin⟩ 0x86
          ++ ILI9341_WriteCommand ⟨hspi, cs_port, cs_pin, dc_port, dc_pin, reset_port, reset_pin⟩
              k.ILI9341_MADCTL
          ++ ILI9341_WriteData ⟨hspi, cs_port, cs_pin, dc_port, dc_pin, reset_port, reset_pin⟩ 0x48
          ++ ILI9341_WriteCommand ⟨hspi, cs_port, cs_pin, dc_port, dc_pin, reset_port, reset_pin⟩
              k.ILI9341_PIXFMT
          ++ ILI9341_WriteData ⟨hspi, cs_port, cs_pin, dc_port, dc_pin, reset_port, reset_pin⟩ 0x55
          ++ ILI9341_WriteCommand ⟨hspi, cs_port, cs_pin, dc_port, dc_pin, reset_port, reset_pin⟩
              k.ILI9341_SLPOUT
          ++ [Event.delay 120]
          ++ ILI9341_WriteCommand ⟨hspi, cs_port, cs_pin, dc_port, dc_pin, reset_port, reset_pin⟩
              k.ILI9341_DISPON
      ∧ spiBytes (ILI9341_Init k prior hspi cs_port cs_pin dc_port dc_pin reset_port reset_pin).2
        = [ k.ILI9341_SWRESET % 256, k.ILI9341_PWCTR1 % 256, 0x23, k.ILI9341_PWCTR2 % 256, 0x10,
            k.ILI9341_VMCTR1 % 256, 0x3E, 0x28, k.ILI9341_VMCTR2 % 256, 0x86,
            k.ILI9341_MADCTL % 256, 0x48, k.ILI9341_PIXFMT % 256, 0x55,
            k.ILI9341_SLPOUT % 256, k.ILI9341_DISPON % 256 ]
      ∧ delays (ILI9341_Init k prior hspi cs_port cs_pin dc_port dc_pin reset_port reset_pin).2
        = [10, 120, 150, 120]
      ∧ (delays
          (ILI9341_Init k prior hspi cs_port cs_pin dc_port dc_pin reset_port reset_pin).2).sum
        = 400
      ∧ (ILI9341_Init k prior hspi cs_port cs_pin dc_port dc_pin reset_port reset_pin).2.length
        = 2 + 4 + 4 * 16 := by
  have hd : delays (ILI9341_Init k prior hspi cs_port cs_pin dc_port dc_pin reset_port reset_pin).2
      = [10, 120, 150, 120] := by
    simp [ILI9341_Init, delays_append, delays_WriteCommand, delays_WriteData, delays_nil,
      delays_cons_delay, delays_cons_gpio]
  refine ⟨rfl, rfl, ?_, hd, ?_, ?_⟩
  · simp [ILI9341_Init, spiBytes_append, spiBytes_WriteCommand, spiBytes_WriteData,
      spiBytes_nil, spiBytes_cons_delay, spiBytes_cons_gpio]
  · rw [hd]; rfl
  · simp [ILI9341_Init, ILI9341_WriteCommand, ILI9341_WriteData]

/-- C13: `ILI9341_Init` does not depend on the prior value of the statics: for
any two prior bindings and the same arguments it produces the same bus trace
and leaves the same binding, equal to the arguments; in particular a second
call with identical arguments, run on the binding left by the first, repeats
the identical trace and binding. -/
theorem Init_idempotent (k : Commands) (prior1 prior2 : Binding)
    (hspi cs_port cs_pin dc_port dc_pin reset_port reset_pin : Nat) :
    ILI9341_Init k prior1 hspi cs_port cs_pin dc_port dc_pin reset_port reset_pin
        = ILI9341_Init k prior2 hspi cs_port cs_pin dc_port dc_pin reset_port reset_pin
      ∧ (ILI9341_Init k prior1 hspi cs_port cs_pin dc_port dc_pin reset_port reset_pin).1
        = { hspi := hspi, cs_port := cs_port, cs_pin := cs_pin, dc_port := dc_port,
            dc_pin := dc_pin, reset_port := reset_port, reset_pin := reset_pin }
      ∧ ILI9341_Init k
          (ILI9341_Init k prior1 hspi cs_port cs_pin dc_port dc_pin reset_port reset_pin).1
          hspi cs_port cs_pin dc_port dc_pin reset_port reset_pin
        = ILI9341_Init k prior1 hspi cs_port cs_pin dc_port dc_pin reset_port reset_pin :=
  ⟨rfl, rfl, rfl⟩

/-! ## Window bounds -/

/-- C14 (failing input): at the last column and row, `x = 239`, `y = 319`, the
pixel passes the bounds check and `ILI9341_DrawPixel` opens the window
(239, 319, 240, 320): `x1 = 240 > 239` and `y1 = 320 > 319`, one past the
panel on both axes; the bytes sent for `x1` are `00 F0` and for `y1`
`01 40`. -/
theorem DrawPixel_window_past_panel (b : Binding) (k : Commands) (color : Nat) :
    ILI9341_DrawPixel b k 239 319 color
        = ILI9341_SetAddressWindow b k 239 319 240 320
          ++ ILI9341_WriteData b (color >>> 8) ++ ILI9341_WriteData b (color &&& 0xFF)
      ∧ (spiBytes (ILI9341_DrawPixel b k 239 319 color)).take 11
        = [ k.ILI9341_CASET % 256, 0x00, 0xEF, 0x00, 0xF0,
            k.ILI9341_PASET % 256, 0x01, 0x3F, 0x01, 0x40, k.ILI9341_RAMWR % 256 ]
      ∧ (239 < 240 ∧ 319 < 320) ∧ ¬ (240 ≤ 239) ∧ ¬ (320 ≤ 319) := by
  have h : ILI9341_DrawPixel b k 239 319 color
        = ILI9341_SetAddressWindow b k 239 319 240 320
          ++ ILI9341_WriteData b (color >>> 8) ++ ILI9341_WriteData b (color &&& 0xFF) := by
    simp [ILI9341_DrawPixel, toU16]
  refine ⟨h, ?_, by decide, by decide, by decide⟩
  rw [h]
  simp [ILI9341_SetAddressWindow, spiBytes_append, spiBytes_WriteCommand, spiBytes_WriteData,
    and_255, shr_8]

/-- The trace of `ILI9341_FillRectangle` for an anchor on the panel: the window
of the clipped rectangle followed by its pixel loop. -/
theorem FillRectangle_eq (b : Binding) (k : Commands) (x y w h color : Nat)
    (hx : x < 240) (hy : y < 320) :
    ILI9341_FillRectangle b k x y w h color
      = ILI9341_SetAddressWindow b k x y
          (toU16 ((x : Int) + (min w (240 - x) : Nat) - 1))
          (toU16 ((y : Int) + (min h (320 - y) : Nat) - 1))
        ++ (List.replicate (min w (240 - x) * min h (320 - y)) (writePixel b color)).flatten := by
  have hw := clip_eq_min x w 240 hx (by decide)
  have hh := clip_eq_min y h 320 hy (by decide)
  have hprod : min w (240 - x) * min h (320 - y) % 4294967296
      = min w (240 - x) * min h (320 - y) := by
    apply Nat.mod_eq_of_lt
    have h1 : min w (240 - x) ≤ 240 := by omega
    have h2 : min h (320 - y) ≤ 320 := by omega
    calc min w (240 - x) * min h (320 - y) ≤ 240 * 320 := Nat.mul_le_mul h1 h2
      _ < 4294967296 := by decide
  have hg : ¬ (x ≥ 240 ∨ y ≥ 320) := by omega
  unfold ILI9341_FillRectangle
  rw [if_neg hg]
  simp only [Nat.cast_ofNat] at hw hh
  simp only [hw, hh, hprod, forLoop_const]

/-- C15: for `x < 240`, `y < 320`, `w >= 1` and `h >= 1`, `ILI9341_FillRectangle`
opens exactly the window `(x, y, x + w1 - 1, y + h1 - 1)` with
`w1 = min w (240 - x)` and `h1 = min h (320 - y)`, which satisfies
`x <= x1 <= 239` and `y <= y1 <= 319`, and then streams exactly
`(x1 - x0 + 1) * (y1 - y0 + 1)` pixels, the area of the window. -/
theorem FillRectangle_window_area (b : Binding) (k : Commands) (x y w h color : Nat)
    (hx : x < 240) (hy : y < 320) (hw : 1 ≤ w) (hh : 1 ≤ h) :
    ILI9341_FillRectangle b k x y w h color
        = ILI9341_SetAddressWindow b k x y
            (x + min w (240 - x) - 1) (y + min h (320 - y) - 1)
          ++ (List.replicate
                (((x + min w (240 - x) - 1) - x + 1) * ((y + min h (320 - y) - 1) - y + 1))
                (ILI9341_WriteData b (color >>> 8) ++ ILI9341_WriteData b (color &&& 0xFF))).flatten
      ∧ x ≤ x + min w (240 - x) - 1 ∧ x + min w (240 - x) - 1 ≤ 239
      ∧ y ≤ y + min h (320 - y) - 1 ∧ y + min h (320 - y) - 1 ≤ 319
      ∧ ((x + min w (240 - x) - 1) - x + 1) * ((y + min h (320 - y) - 1) - y + 1)
          = min w (240 - x) * min h (320 - y) := by
  have hx1 : toU16 ((x : Int) + (min w (240 - x) : Nat) - 1) = x + min w (240 - x) - 1 := by
    unfold toU16; omega
  have hy1 : toU16 ((y : Int) + (min h (320 - y) : Nat) - 1) = y + min h (320 - y) - 1 := by
    unfold toU16; omega
  have ha : (x + min w (240 - x) - 1) - x + 1 = min w (240 - x) := by omega
  have hb : (y + min h (320 - y) - 1) - y + 1 = min h (320 - y) := by omega
  refine ⟨?_, by omega, by omega, by omega, by omega, by rw [ha, hb]⟩
  rw [FillRectangle_eq b k x y w h color hx hy, hx1, hy1, ha, hb, writePixel]

/-- C15, evaluated: a 10 x 10 rectangle at (235, 315) is clipped to the window
(235, 315, 239, 319) and 25 pixels are streamed. -/
theorem FillRectangle_window_area_witness :
    (235 < 240 ∧ 315 < 320 ∧ 1 ≤ 10 ∧ 1 ≤ 10)
      ∧ ILI9341_FillRectangle sampleBinding sampleCommands 235 315 10 10 0x001F
          = ILI9341_SetAddressWindow sampleBinding sampleCommands 235 315 239 319
            ++ (List.replicate 25
                  (ILI9341_WriteData sampleBinding (0x001F >>> 8)
                    ++ ILI9341_WriteData sampleBinding (0x001F &&& 0xFF))).flatten :=
  ⟨by decide,
   (FillRectangle_window_area sampleBinding sampleCommands 235 315 10 10 0x001F
      (by decide) (by decide) (by decide) (by decide)).1⟩

/-- C18: for `w >= 240` and `h >= 320`, the bus trace of
`ILI9341_FillRectangle(0,0,w,h,color)` is identical to the bus trace of
`ILI9341_FillScreen(color)`; in particular for `(w,h) = (240,320)`. -/
theorem FillRectangle_full_panel_eq_FillScreen (b : Binding) (k : Commands) (w h color : Nat)
    (hw : 240 ≤ w) (hh : 320 ≤ h) :
    ILI9341_FillRectangle b k 0 0 w h color = ILI9341_FillScreen b k color
      ∧ ILI9341_FillRectangle b k 0 0 240 320 color = ILI9341_FillScreen b k color := by
  have key : ∀ w h : Nat, 240 ≤ w → 320 ≤ h →
      ILI9341_FillRectangle b k 0 0 w h color = ILI9341_FillScreen b k color := by
    intro w h hw hh
    have hmw : min w (240 - 0) = 240 := by omega
    have hmh : min h (320 - 0) = 320 := by omega
    have hx1 : toU16 (((0 : Nat) : Int) + ((240 : Nat) : Int) - 1) = 239 := by
      unfold toU16; omega
    have hy1 : toU16 (((0 : Nat) : Int) + ((320 : Nat) : Int) - 1) = 319 := by
      unfold toU16; omega
    rw [FillRectangle_eq b k 0 0 w h color (by decide) (by decide), hmw, hmh, hx1, hy1]
    unfold ILI9341_FillScreen
    rw [forLoop_const]
  exact ⟨key w h hw hh, key 240 320 (Nat.le_refl _) (Nat.le_refl _)⟩

/-- C18, evaluated at `(w,h) = (65535, 65535)`. -/
theorem FillRectangle_full_panel_eq_FillScreen_witness :
    (240 ≤ 65535 ∧ 320 ≤ 65535)
      ∧ ILI9341_FillRectangle sampleBinding sampleCommands 0 0 65535 65535 0xFFFF
          = ILI9341_FillScreen sampleBinding sampleCommands 0xFFFF :=
  ⟨by decide,
   (FillRectangle_full_panel_eq_FillScreen sampleBinding sampleCommands 65535 65535 0xFFFF
      (by decide) (by decide)).1⟩

/-! ## Font lookup -/

theorem fontRead_eq_none (font : List Nat) (idx : Int)
    (h : idx < 0 ∨ (font.length : Int) ≤ idx) : fontRead font idx = none := by
  unfold fontRead
  rw [if_neg (by omega)]

theorem DrawChar_columns_none (font : List Nat) (x y : Nat) (c : Int) (fg bg size : Nat)
    (n : Nat) :
    ∀ i : Nat, (∃ t, t < n ∧ fontRead font ((c - 32) * 5 + ((i + t : Nat) : Int)) = none) →
      DrawChar_columns font x y c fg bg size i n = none := by
  induction n with
  | zero => intro i ⟨t, ht, _⟩; omega
  | succ n ih =>
    intro i ⟨t, ht, hnone⟩
    rw [DrawChar_columns]
    cases hread : fontRead font ((c - 32) * 5 + (i : Int)) with
    | none => rfl
    | some line =>
      have hrest : DrawChar_columns font x y c fg bg size (i + 1) n = none := by
        apply ih
        cases t with
        | zero =>
          rw [Nat.add_zero, hread] at hnone
          cases hnone
        | succ t' =>
          refine ⟨t', by omega, ?_⟩
          have : i + 1 + t' = i + (t' + 1) := by omega
          rw [this]; exact hnone
      simp only [hrest]

/-- C17: with a font table of length `L`: for `c >= 32` with
`(c-32)*5 + 4 < L` each of the five indices `(c-32)*5 + i` read by
`ILI9341_DrawChar` lies in `[0, L)` and the read returns the table byte; for
`c < 32` every index is negative; for `(c-32)*5 + 4 >= L` some read falls
outside the table.  Hence the lookup of `ILI9341_DrawChar` stays inside the
table exactly when `c >= 32` and `(c-32)*5 + 4 < L`. -/
theorem font_lookup_in_bounds (font : List Nat) (x y : Nat) (c : Int) (fg bg size : Nat) :
    (32 ≤ c → (c - 32) * 5 + 4 < (font.length : Int) →
        ∀ i : Nat, i < 5 →
          0 ≤ (c - 32) * 5 + (i : Int) ∧ (c - 32) * 5 + (i : Int) < (font.length : Int)
            ∧ fontRead font ((c - 32) * 5 + (i : Int)) = some (glyphByte font c i))
      ∧ (c < 32 →
          ∀ i : Nat, i < 5 →
            (c - 32) * 5 + (i : Int) < 0 ∧ fontRead font ((c - 32) * 5 + (i : Int)) = none)
      ∧ ((font.length : Int) ≤ (c - 32) * 5 + 4 →
          ∃ i : Nat, i < 5 ∧ ¬ (0 ≤ (c - 32) * 5 + (i : Int)
                ∧ (c - 32) * 5 + (i : Int) < (font.length : Int))
            ∧ fontRead font ((c - 32) * 5 + (i : Int)) = none)
      ∧ ((DrawChar_calls font x y c fg bg size).isSome = true
          ↔ (32 ≤ c ∧ (c - 32) * 5 + 4 < (font.length : Int))) := by
  refine ⟨?_, ?_, ?_, ?_⟩
  · intro hlo hhi i hi
    refine ⟨by omega, by omega, ?_⟩
    rw [fontRead_valid font _ (by omega) (by omega), glyphByte]
  · intro hc i hi
    exact ⟨by omega, fontRead_eq_none font _ (Or.inl (by omega))⟩
  · intro hL
    by_cases hc : c < 32
    · exact ⟨0, by decide, by omega, fontRead_eq_none font _ (Or.inl (by omega))⟩
    · exact ⟨4, by decide, by omega, fontRead_eq_none font _ (Or.inr (by omega))⟩
  · constructor
    · intro hsome
      by_cases hc : c < 32
      · have hnone : DrawChar_calls font x y c fg bg size = none := by
          unfold DrawChar_calls
          apply DrawChar_columns_none
          exact ⟨0, by decide, fontRead_eq_none font _ (Or.inl (by omega))⟩
        rw [hnone] at hsome; cases hsome
      · by_cases hL : (font.length : Int) ≤ (c - 32) * 5 + 4
        · have hnone : DrawChar_calls font x y c fg bg size = none := by
            unfold DrawChar_calls
            apply DrawChar_columns_none
            exact ⟨4, by decide, fontRead_eq_none font _ (Or.inr (by omega))⟩
          rw [hnone] at hsome; cases hsome
        · exact ⟨by omega, by omega⟩
    · intro ⟨hlo, hhi⟩
      rw [DrawChar_calls_eq font x y c fg bg size hlo hhi]
      rfl

/-- C17, evaluated on the 170-byte sample font: `'A'` (65) is covered, the
character 31 and the character 66 are not. -/
theorem font_lookup_in_bounds_witness :
    (DrawChar_calls sampleFont 0 0 65 0xFFFF 0 1).isSome = true
      ∧ ¬ ((DrawChar_calls sampleFont 0 0 31 0xFFFF 0 1).isSome = true)
      ∧ ¬ ((DrawChar_calls sampleFont 0 0 66 0xFFFF 0 1).isSome = true) :=
  ⟨(font_lookup_in_bounds sampleFont 0 0 65 0xFFFF 0 1).2.2.2.mpr
      ⟨by decide, by simp only [sampleFont_length]; decide⟩,
   fun h => absurd ((font_lookup_in_bounds sampleFont 0 0 31 0xFFFF 0 1).2.2.2.mp h).1
      (by decide),
   fun h => absurd ((font_lookup_in_bounds sampleFont 0 0 66 0xFFFF 0 1).2.2.2.mp h).2
      (by simp only [sampleFont_length]; decide)⟩

/-! ## Scaled glyphs -/

theorem tile_cover (s n o p : Nat) (hs : 1 ≤ s) :
    (o ≤ p ∧ p < o + n * s) ↔ ∃ i, i < n ∧ o + i * s ≤ p ∧ p ≤ o + i * s + s - 1 := by
  constructor
  · intro ⟨h1, h2⟩
    have hdm := Nat.div_add_mod (p - o) s
    have hmod : (p - o) % s < s := Nat.mod_lt _ (by omega)
    have hcomm : s * ((p - o) / s) = (p - o) / s * s := Nat.mul_comm _ _
    refine ⟨(p - o) / s, ?_, by omega, by omega⟩
    apply Nat.div_lt_of_lt_mul
    rw [Nat.mul_comm]; omega
  · intro ⟨i, hi, h1, h2⟩
    have hle : (i + 1) * s ≤ n * s := Nat.mul_le_mul_right s hi
    rw [Nat.add_mul, Nat.one_mul] at hle
    omega

theorem tile_unique (s o p i i' : Nat) (hs : 1 ≤ s)
    (h1 : o + i * s ≤ p ∧ p ≤ o + i * s + s - 1)
    (h2 : o + i' * s ≤ p ∧ p ≤ o + i' * s + s - 1) : i = i' := by
  rcases Nat.lt_trichotomy i i' with h | h | h
  · have hle : (i + 1) * s ≤ i' * s := Nat.mul_le_mul_right s h
    rw [Nat.add_mul, Nat.one_mul] at hle
    omega
  · exact h
  · have hle : (i' + 1) * s ≤ i * s := Nat.mul_le_mul_right s h
    rw [Nat.add_mul, Nat.one_mul] at hle
    omega

theorem flatMap_singleton_eq_map {α β : Type} (l : List α) (f : α → β) :
    l.flatMap (fun a => [f a]) = l.map f := by
  induction l with
  | nil => rfl
  | cons a l ih => rw [List.flatMap_cons, ih, List.map_cons]; rfl

theorem DrawChar_calls_scaled (font : List Nat) (x y : Nat) (c : Int) (fg bg s : Nat)
    (hlo : 32 ≤ c) (hhi : (c - 32) * 5 + 4 < (font.length : Int))
    (hs : 2 ≤ s) (hne : fg ≠ bg) (hx : x + 5 * s ≤ 240) (hy : y + 8 * s ≤ 320) :
    DrawChar_calls font x y c fg bg s
      = some ((List.range 5).flatMap (fun i => (List.range 8).map (fun j =>
          DrawCall.rect (x + i * s) (y + j * s) s s
            (if (glyphByte font c i).testBit j then fg else bg)))) := by
  rw [DrawChar_calls_eq font x y c fg bg s hlo hhi]
  congr 1
  apply List.flatMap_congr
  intro i hi
  rw [← flatMap_singleton_eq_map]
  apply List.flatMap_congr
  intro j hj
  have hi5 : i < 5 := List.mem_range.mp hi
  have hj8 : j < 8 := List.mem_range.mp hj
  have him : i * s ≤ 4 * s := Nat.mul_le_mul_right s (by omega)
  have hjm : j * s ≤ 7 * s := Nat.mul_le_mul_right s (by omega)
  have hxi : toU16 ((x : Int) + ((i * s : Nat) : Int)) = x + i * s := by unfold toU16; omega
  have hyj : toU16 ((y : Int) + ((j * s : Nat) : Int)) = y + j * s := by unfold toU16; omega
  have hs1 : s ≠ 1 := by omega
  have hbg : bg ≠ fg := fun h => hne h.symm
  unfold bitCalls glyphCall
  rw [if_neg hs1, hxi, hyj]
  cases (glyphByte font c i).testBit j <;> simp [hbg, hs1]

theorem FillRectangle_block (b : Binding) (k : Commands) (x y i j s color : Nat)
    (hi : i < 5) (hj : j < 8) (hs : 2 ≤ s) (hx : x + 5 * s ≤ 240) (hy : y + 8 * s ≤ 320) :
    ILI9341_FillRectangle b k (x + i * s) (y + j * s) s s color
      = ILI9341_SetAddressWindow b k (x + i * s) (y + j * s)
          (x + i * s + s - 1) (y + j * s + s - 1)
        ++ (List.replicate (s * s) (writePixel b color)).flatten := by
  have him : i * s ≤ 4 * s := Nat.mul_le_mul_right s (by omega)
  have hjm : j * s ≤ 7 * s := Nat.mul_le_mul_right s (by omega)
  have hmw : min s (240 - (x + i * s)) = s := by omega
  have hmh : min s (320 - (y + j * s)) = s := by omega
  have hx1 : toU16 (((x + i * s : Nat) : Int) + ((s : Nat) : Int) - 1) = x + i * s + s - 1 := by
    unfold toU16; omega
  have hy1 : toU16 (((y + j * s : Nat) : Int) + ((s : Nat) : Int) - 1) = y + j * s + s - 1 := by
    unfold toU16; omega
  rw [FillRectangle_eq b k _ _ s s color (by omega) (by omega), hmw, hmh, hx1, hy1]
theorem spiBytes_flatMap {α : Type} (l : List α) (f : α → Trace) :
    spiBytes (l.flatMap f) = l.flatMap (fun a => spiBytes (f a)) := by
  induction l with
  | nil => rfl
  | cons a l ih => rw [List.flatMap_cons, spiBytes_append, ih, List.flatMap_cons]

theorem length_flatMap_const {α β : Type} (l : List α) (f : α → List β) (m : Nat)
    (h : ∀ a ∈ l, (f a).length = m) : (l.flatMap f).length = l.length * m := by
  induction l with
  | nil => simp
  | cons a l ih =>
    rw [List.flatMap_cons, List.length_append, h a (List.mem_cons_self a l),
      ih (fun a' h' => h a' (List.mem_cons_of_mem a h')), List.length_cons, Nat.succ_mul]
    omega

theorem spiBytes_SetAddressWindow_length (b : Binding) (k : Commands) (x0 y0 x1 y1 : Nat) :
    (spiBytes (ILI9341_SetAddressWindow b k x0 y0 x1 y1)).length = 11 := by
  simp [ILI9341_SetAddressWindow, spiBytes_append, spiBytes_WriteCommand, spiBytes_WriteData]

theorem spiBytes_pixels_length (b : Binding) (color n : Nat) :
    (spiBytes (List.replicate n (writePixel b color)).flatten).length = 2 * n := by
  induction n with
  | zero => rfl
  | succ n ih =>
    rw [List.replicate_succ, List.flatten_cons, spiBytes_append, List.length_append, ih,
      writePixel, spiBytes_append, spiBytes_WriteData, spiBytes_WriteData]
    simp only [List.length_append, List.length_cons, List.length_nil]
    omega

/-- C16: for size `s >= 2`, `fg != bg`, a character with a valid table entry
and a cell inside the panel (`x + 5*s <= 240`, `y + 8*s <= 320`),
`ILI9341_DrawChar` makes exactly 40 `ILI9341_FillRectangle` calls, block
`(i,j)` at `(x + i*s, y + j*s)` of size `s x s`, in `fg` when bit `j` of glyph
column `i` is set and in `bg` otherwise.  No block is clipped: each opens the
window `(x+i*s, y+j*s, x+i*s+s-1, y+j*s+s-1)` inside the panel and streams
`s*s` pixels.  The 40 windows are pairwise disjoint, their union is the
rectangle `[x, x+5s) x [y, y+8s)`, and the trace carries `40 * 11` window bytes
and `2 * (40*s*s)` pixel bytes, i.e. `40*s*s` pixels. -/
theorem DrawChar_scaled_tiles (b : Binding) (k : Commands) (font : List Nat) (x y : Nat)
    (c : Int) (fg bg s : Nat)
    (hlo : 32 ≤ c) (hhi : (c - 32) * 5 + 4 < (font.length : Int))
    (hs : 2 ≤ s) (hne : fg ≠ bg) (hx : x + 5 * s ≤ 240) (hy : y + 8 * s ≤ 320) :
    DrawChar_calls font x y c fg bg s
        = some ((List.range 5).flatMap (fun i => (List.range 8).map (fun j =>
            DrawCall.rect (x + i * s) (y + j * s) s s
              (if (glyphByte font c i).testBit j then fg else bg))))
      ∧ ((List.range 5).flatMap (fun i => (List.range 8).map (fun j =>
            DrawCall.rect (x + i * s) (y + j * s) s s
              (if (glyphByte font c i).testBit j then fg else bg)))).length = 40
      ∧ ILI9341_DrawChar b k font x y c fg bg s
        = some ((List.range 5).flatMap (fun i => (List.range 8).flatMap (fun j =>
            ILI9341_SetAddressWindow b k (x + i * s) (y + j * s)
                (x + i * s + s - 1) (y + j * s + s - 1)
              ++ (List.replicate (s * s)
                    (writePixel b (if (glyphByte font c i).testBit j then fg else bg))).flatten)))
      ∧ (∀ i j : Nat, i < 5 → j < 8 → x + i * s + s - 1 ≤ 239 ∧ y + j * s + s - 1 ≤ 319)
      ∧ (∀ px py : Nat, (x ≤ px ∧ px < x + 5 * s ∧ y ≤ py ∧ py < y + 8 * s)
          ↔ ∃ i j : Nat, i < 5 ∧ j < 8
              ∧ inWindow (x + i * s) (y + j * s) (x + i * s + s - 1) (y + j * s + s - 1) px py)
      ∧ (∀ i j i' j' px py : Nat,
          inWindow (x + i * s) (y + j * s) (x + i * s + s - 1) (y + j * s + s - 1) px py →
          inWindow (x + i' * s) (y + j' * s) (x + i' * s + s - 1) (y + j' * s + s - 1) px py →
          i = i' ∧ j = j')
      ∧ (∀ t : Trace, ILI9341_DrawChar b k font x y c fg bg s = some t →
          (spiBytes t).length = 40 * 11 + 2 * (40 * s * s)) := by
  have hcalls := DrawChar_calls_scaled font x y c fg bg s hlo hhi hs hne hx hy
  have htrace : ILI9341_DrawChar b k font x y c fg bg s
        = some ((List.range 5).flatMap (fun i => (List.range 8).flatMap (fun j =>
            ILI9341_SetAddressWindow b k (x + i * s) (y + j * s)
                (x + i * s + s - 1) (y + j * s + s - 1)
              ++ (List.replicate (s * s)
                    (writePixel b (if (glyphByte font c i).testBit j then fg else bg))).flatten))) := by
    unfold ILI9341_DrawChar
    rw [hcalls, Option.map_some', runCalls_flatMap]
    congr 1
    apply List.flatMap_congr
    intro i hi
    rw [← flatMap_singleton_eq_map, runCalls_flatMap]
    apply List.flatMap_congr
    intro j hj
    have hblock := FillRectangle_block b k x y i j s
      (if (glyphByte font c i).testBit j then fg else bg)
      (List.mem_range.mp hi) (List.mem_range.mp hj) hs hx hy
    rw [← hblock]
    simp [runCalls, DrawCall.run]
  refine ⟨hcalls, ?_, htrace, ?_, ?_, ?_, ?_⟩
  · rw [length_flatMap_const _ _ 8 (fun i _ => by rw [List.length_map, List.length_range])]
    rfl
  · intro i j hi hj
    have him : i * s ≤ 4 * s := Nat.mul_le_mul_right s (by omega)
    have hjm : j * s ≤ 7 * s := Nat.mul_le_mul_right s (by omega)
    omega
  · intro px py
    unfold inWindow
    constructor
    · intro ⟨h1, h2, h3, h4⟩
      obtain ⟨i, hi, hi1, hi2⟩ := (tile_cover s 5 x px (by omega)).mp ⟨h1, h2⟩
      obtain ⟨j, hj, hj1, hj2⟩ := (tile_cover s 8 y py (by omega)).mp ⟨h3, h4⟩
      exact ⟨i, j, hi, hj, hi1, hi2, hj1, hj2⟩
    · intro ⟨i, j, hi, hj, hi1, hi2, hj1, hj2⟩
      have hxx := (tile_cover s 5 x px (by omega)).mpr ⟨i, hi, hi1, hi2⟩
      have hyy := (tile_cover s 8 y py (by omega)).mpr ⟨j, hj, hj1, hj2⟩
      exact ⟨hxx.1, hxx.2, hyy.1, hyy.2⟩
  · intro i j i' j' px py h1 h2
    unfold inWindow at h1 h2
    exact ⟨tile_unique s x px i i' (by omega) ⟨h1.1, h1.2.1⟩ ⟨h2.1, h2.2.1⟩,
      tile_unique s y py j j' (by omega) ⟨h1.2.2.1, h1.2.2.2⟩ ⟨h2.2.2.1, h2.2.2.2⟩⟩
  · intro t ht
    rw [htrace] at ht
    have ht' := Option.some.inj ht
    rw [← ht', spiBytes_flatMap,
      length_flatMap_const _ _ (8 * (11 + 2 * (s * s))) (fun i _ => by
        rw [spiBytes_flatMap,
          length_flatMap_const _ _ (11 + 2 * (s * s)) (fun j _ => by
            rw [spiBytes_append, List.length_append, spiBytes_SetAddressWindow_length,
              spiBytes_pixels_length]),
          List.length_range]),
      List.length_range]
    have : 40 * s * s = 40 * (s * s) := Nat.mul_assoc _ _ _
    omega

/-- C16, evaluated: the letter `A` of the sample font at (10, 20), size 3. -/
theorem DrawChar_scaled_tiles_witness :
    ((32 : Int) ≤ 65 ∧ ((65 : Int) - 32) * 5 + 4 < (sampleFont.length : Int)
        ∧ 2 ≤ 3 ∧ (0xFFFF : Nat) ≠ 0 ∧ 10 + 5 * 3 ≤ 240 ∧ 20 + 8 * 3 ≤ 320)
      ∧ DrawChar_calls sampleFont 10 20 65 0xFFFF 0 3
          = some ((List.range 5).flatMap (fun i => (List.range 8).map (fun j =>
              DrawCall.rect (10 + i * 3) (20 + j * 3) 3 3
                (if (glyphByte sampleFont 65 i).testBit j then 0xFFFF else 0)))) :=
  ⟨⟨by decide, by simp only [sampleFont_length]; decide, by decide, by decide, by decide,
      by decide⟩,
   (DrawChar_scaled_tiles sampleBinding sampleCommands sampleFont 10 20 65 0xFFFF 0 3
      (by decide) (by simp only [sampleFont_length]; decide) (by decide) (by decide)
      (by decide) (by decide)).1⟩

/-! ## Chip-select framing -/

theorem Framed_append {b : Binding} {s t : Trace} (hs : Framed b s) (ht : Framed b t) :
    Framed b (s ++ t) := by
  induction hs with
  | nil => exact ht
  | frame h v s' _ ih => exact Framed.frame h v (s' ++ t) ih
  | skip e s' he _ ih => exact Framed.skip e (s' ++ t) he ih

theorem EndsCsHigh_append {b : Binding} {s t : Trace} (hs : EndsCsHigh b s)
    (ht : EndsCsHigh b t) : EndsCsHigh b (s ++ t) := by
  rcases ht with ht | ht
  · rw [ht, List.append_nil]; exact hs
  · right
    rw [List.getLast?_append, ht]
    rfl

theorem Framed_index {b : Binding} {t : Trace} (ht : Framed b t) :
    ∀ i h v : Nat, t[i]? = some (Event.spi h v) →
      1 ≤ i ∧ t[i - 1]? = some (Event.gpio b.cs_port b.cs_pin false)
        ∧ t[i + 1]? = some (Event.gpio b.cs_port b.cs_pin true) := by
  induction ht with
  | nil => intro i h v hi; simp at hi
  | frame h0 v0 t' _ ih =>
    intro i h v hi
    match i, hi with
    | 0, hi => simp at hi
    | 1, _ => simp
    | 2, hi => simp at hi
    | i + 3, hi =>
      simp only [List.getElem?_cons_succ] at hi
      obtain ⟨h1, h2, h3⟩ := ih i h v hi
      refine ⟨by omega, ?_, ?_⟩
      · have : i + 3 - 1 = (i - 1) + 1 + 1 + 1 := by omega
        rw [this]
        simp only [List.getElem?_cons_succ]
        exact h2
      · simp only [List.getElem?_cons_succ]
        exact h3
  | skip e t' he _ ih =>
    intro i h v hi
    match i, hi with
    | 0, hi =>
      simp only [List.getElem?_cons_zero, Option.some.injEq] at hi
      exact absurd hi (he h v)
    | i + 1, hi =>
      simp only [List.getElem?_cons_succ] at hi
      obtain ⟨h1, h2, h3⟩ := ih i h v hi
      refine ⟨by omega, ?_, ?_⟩
      · have : i + 1 - 1 = (i - 1) + 1 := by omega
        rw [this]
        simp only [List.getElem?_cons_succ]
        exact h2
      · simp only [List.getElem?_cons_succ]
        exact h3

theorem csLevel_concat_cs (b : Binding) (t : Trace) (l : Bool) :
    csLevel b (t ++ [Event.gpio b.cs_port b.cs_pin l]) = some l := by
  unfold csLevel
  rw [List.foldl_append]
  simp

theorem CsFramed_of_Framed {b : Binding} {t : Trace} (hf : Framed b t)
    (he : EndsCsHigh b t) : CsFramed b t := by
  have hidx := Framed_index hf
  refine ⟨?_, ?_, he⟩
  · intro i h v hi
    obtain ⟨h1, h2, h3⟩ := hidx i h v hi
    refine ⟨h1, h2, h3, ?_⟩
    have hi' : i = (i - 1) + 1 := by omega
    rw [hi', List.take_succ, h2]
    exact csLevel_concat_cs b _ false
  · intro i j h v h' v' hij hi hj
    obtain ⟨_, _, h3⟩ := hidx i h v hi
    obtain ⟨_, h2', _⟩ := hidx j h' v' hj
    refine ⟨i + 1, by omega, ?_, h3⟩
    rcases Nat.lt_or_ge (i + 1) j with hlt | hge
    · exact hlt
    · have hji : j = i + 1 := by omega
      rw [hji, h3] at hj
      cases hj
theorem Framed_WriteCommand (b : Binding) (v : Nat) : Framed b (ILI9341_WriteCommand b v) :=
  Framed.skip _ _ (fun _ _ h => by cases h) (Framed.frame _ _ _ Framed.nil)

theorem Framed_WriteData (b : Binding) (v : Nat) : Framed b (ILI9341_WriteData b v) :=
  Framed.skip _ _ (fun _ _ h => by cases h) (Framed.frame _ _ _ Framed.nil)

theorem EndsCsHigh_WriteCommand (b : Binding) (v : Nat) :
    EndsCsHigh b (ILI9341_WriteCommand b v) := Or.inr rfl

theorem EndsCsHigh_WriteData (b : Binding) (v : Nat) :
    EndsCsHigh b (ILI9341_WriteData b v) := Or.inr rfl

theorem Framed_SetAddressWindow (b : Binding) (k : Commands) (x0 y0 x1 y1 : Nat) :
    Framed b (ILI9341_SetAddressWindow b k x0 y0 x1 y1) := by
  unfold ILI9341_SetAddressWindow
  repeat (first
    | exact Framed_WriteCommand b _
    | apply Framed_append _ (Framed_WriteCommand b _)
    | apply Framed_append _ (Framed_WriteData b _))

theorem EndsCsHigh_SetAddressWindow (b : Binding) (k : Commands) (x0 y0 x1 y1 : Nat) :
    EndsCsHigh b (ILI9341_SetAddressWindow b k x0 y0 x1 y1) := by
  unfold ILI9341_SetAddressWindow
  right
  rw [List.getLast?_append]
  rfl

theorem Framed_writePixel (b : Binding) (color : Nat) : Framed b (writePixel b color) :=
  Framed_append (Framed_WriteData b _) (Framed_WriteData b _)

theorem EndsCsHigh_writePixel (b : Binding) (color : Nat) : EndsCsHigh b (writePixel b color) :=
  EndsCsHigh_append (EndsCsHigh_WriteData b _) (EndsCsHigh_WriteData b _)

theorem Framed_pixelLoop (b : Binding) (color n : Nat) :
    Framed b (forLoop (fun _ => writePixel b color) 0 n) := by
  rw [forLoop_const]
  induction n with
  | zero => exact Framed.nil
  | succ n ih =>
    rw [List.replicate_succ, List.flatten_cons]
    exact Framed_append (Framed_writePixel b color) ih

theorem EndsCsHigh_pixelLoop (b : Binding) (color n : Nat) :
    EndsCsHigh b (forLoop (fun _ => writePixel b color) 0 n) := by
  rw [forLoop_const]
  induction n with
  | zero => exact Or.inl rfl
  | succ n ih =>
    rw [List.replicate_succ, List.flatten_cons]
    exact EndsCsHigh_append (EndsCsHigh_writePixel b color) ih

theorem Framed_FillScreen (b : Binding) (k : Commands) (color : Nat) :
    Framed b (ILI9341_FillScreen b k color) ∧ EndsCsHigh b (ILI9341_FillScreen b k color) := by
  unfold ILI9341_FillScreen
  exact ⟨Framed_append (Framed_SetAddressWindow b k _ _ _ _) (Framed_pixelLoop b color _),
    EndsCsHigh_append (EndsCsHigh_SetAddressWindow b k _ _ _ _) (EndsCsHigh_pixelLoop b color _)⟩

theorem Framed_FillRectangle (b : Binding) (k : Commands) (x y w h color : Nat) :
    Framed b (ILI9341_FillRectangle b k x y w h color)
      ∧ EndsCsHigh b (ILI9341_FillRectangle b k x y w h color) := by
  unfold ILI9341_FillRectangle
  split
  · exact ⟨Framed.nil, Or.inl rfl⟩
  · exact ⟨Framed_append (Framed_SetAddressWindow b k _ _ _ _) (Framed_pixelLoop b color _),
      EndsCsHigh_append (EndsCsHigh_SetAddressWindow b k _ _ _ _)
        (EndsCsHigh_pixelLoop b color _)⟩

theorem Framed_DrawPixel (b : Binding) (k : Commands) (x y color : Nat) :
    Framed b (ILI9341_DrawPixel b k x y color)
      ∧ EndsCsHigh b (ILI9341_DrawPixel b k x y color) := by
  unfold ILI9341_DrawPixel
  split
  · exact ⟨Framed.nil, Or.inl rfl⟩
  · exact ⟨Framed_append (Framed_append (Framed_SetAddressWindow b k _ _ _ _)
        (Framed_WriteData b _)) (Framed_WriteData b _),
      EndsCsHigh_append (EndsCsHigh_append (EndsCsHigh_SetAddressWindow b k _ _ _ _)
        (EndsCsHigh_WriteData b _)) (EndsCsHigh_WriteData b _)⟩

theorem Framed_runCalls (b : Binding) (k : Commands) (calls : List DrawCall) :
    Framed b (runCalls b k calls) ∧ EndsCsHigh b (runCalls b k calls) := by
  induction calls with
  | nil => exact ⟨Framed.nil, Or.inl rfl⟩
  | cons call rest ih =>
    have hsplit : runCalls b k (call :: rest) = DrawCall.run b k call ++ runCalls b k rest := by
      simp [runCalls]
    have hcall : Framed b (DrawCall.run b k call) ∧ EndsCsHigh b (DrawCall.run b k call) := by
      cases call with
      | pixel x y color => exact Framed_DrawPixel b k x y color
      | rect x y w h color => exact Framed_FillRectangle b k x y w h color
    rw [hsplit]
    exact ⟨Framed_append hcall.1 ih.1, EndsCsHigh_append hcall.2 ih.2⟩

theorem Framed_DrawChar (b : Binding) (k : Commands) (font : List Nat) (x y : Nat) (c : Int)
    (fg bg size : Nat) (t : Trace)
    (ht : ILI9341_DrawChar b k font x y c fg bg size = some t) :
    Framed b t ∧ EndsCsHigh b t := by
  unfold ILI9341_DrawChar at ht
  cases hc : DrawChar_calls font x y c fg bg size with
  | none => rw [hc] at ht; cases ht
  | some calls =>
    rw [hc, Option.map_some'] at ht
    rw [← Option.some.inj ht]
    exact Framed_runCalls b k calls

theorem Framed_DrawString (b : Binding) (k : Commands) (font : List Nat) (y fg bg size : Nat)
    (str : List Int) :
    ∀ (x : Nat) (t : Trace), ILI9341_DrawString b k font x y str fg bg size = some t →
      Framed b t ∧ EndsCsHigh b t := by
  induction str with
  | nil =>
    intro x t ht
    rw [ILI9341_DrawString] at ht
    rw [← Option.some.inj ht]
    exact ⟨Framed.nil, Or.inl rfl⟩
  | cons c rest ih =>
    intro x t ht
    rw [ILI9341_DrawString] at ht
    split at ht
    · rw [← Option.some.inj ht]
      exact ⟨Framed.nil, Or.inl rfl⟩
    · cases hc : ILI9341_DrawChar b k font x y c fg bg size with
      | none => rw [hc] at ht; cases ht
      | some t1 =>
        rw [hc] at ht
        simp only at ht
        cases hr : ILI9341_DrawString b k font (toU16 ((x : Int) + ((6 * size : Nat) : Int))) y
            rest fg bg size with
        | none => rw [hr] at ht; cases ht
        | some t2 =>
          rw [hr] at ht
          simp only at ht
          rw [← Option.some.inj ht]
          have h1 := Framed_DrawChar b k font x y c fg bg size t1 hc
          have h2 := ih _ t2 hr
          exact ⟨Framed_append h1.1 h2.1, EndsCsHigh_append h1.2 h2.2⟩

theorem Framed_Init_trace (k : Commands) (bb : Binding) :
    Framed bb
      ([Event.gpio bb.reset_port bb.reset_pin false, Event.delay 10,
        Event.gpio bb.reset_port bb.reset_pin true, Event.delay 120]
        ++ ILI9341_WriteCommand bb k.ILI9341_SWRESET
        ++ [Event.delay 150]
        ++ ILI9341_WriteCommand bb k.ILI9341_PWCTR1
        ++ ILI9341_WriteData bb 0x23
        ++ ILI9341_WriteCommand bb k.ILI9341_PWCTR2
        ++ ILI9341_WriteData bb 0x10
        ++ ILI9341_WriteCommand bb k.ILI9341_VMCTR1
        ++ ILI9341_WriteData bb 0x3E
        ++ ILI9341_WriteData bb 0x28
        ++ ILI9341_WriteCommand bb k.ILI9341_VMCTR2
        ++ ILI9341_WriteData bb 0x86
        ++ ILI9341_WriteCommand bb k.ILI9341_MADCTL
        ++ ILI9341_WriteData bb 0x48
        ++ ILI9341_WriteCommand bb k.ILI9341_PIXFMT
        ++ ILI9341_WriteData bb 0x55
        ++ ILI9341_WriteCommand bb k.ILI9341_SLPOUT
        ++ [Event.delay 120]
        ++ ILI9341_WriteCommand bb k.ILI9341_DISPON) := by
  have hd : ∀ ms : Nat, Framed bb [Event.delay ms] :=
    fun ms => Framed.skip _ _ (fun _ _ h => by cases h) Framed.nil
  have hr : Framed bb [Event.gpio bb.reset_port bb.reset_pin false, Event.delay 10,
      Event.gpio bb.reset_port bb.reset_pin true, Event.delay 120] :=
    Framed.skip _ _ (fun _ _ h => by cases h)
      (Framed.skip _ _ (fun _ _ h => by cases h)
        (Framed.skip _ _ (fun _ _ h => by cases h)
          (Framed.skip _ _ (fun _ _ h => by cases h) Framed.nil)))
  have hc := Framed_WriteCommand bb
  have hw := Framed_WriteData bb
  have h1 := Framed_append hr (hc k.ILI9341_SWRESET)
  have h2 := Framed_append h1 (hd 150)
  have h3 := Framed_append h2 (hc k.ILI9341_PWCTR1)
  have h4 := Framed_append h3 (hw 0x23)
  have h5 := Framed_append h4 (hc k.ILI9341_PWCTR2)
  have h6 := Framed_append h5 (hw 0x10)
  have h7 := Framed_append h6 (hc k.ILI9341_VMCTR1)
  have h8 := Framed_append h7 (hw 0x3E)
  have h9 := Framed_append h8 (hw 0x28)
  have h10 := Framed_append h9 (hc k.ILI9341_VMCTR2)
  have h11 := Framed_append h10 (hw 0x86)
  have h12 := Framed_append h11 (hc k.ILI9341_MADCTL)
  have h13 := Framed_append h12 (hw 0x48)
  have h14 := Framed_append h13 (hc k.ILI9341_PIXFMT)
  have h15 := Framed_append h14 (hw 0x55)
  have h16 := Framed_append h15 (hc k.ILI9341_SLPOUT)
  have h17 := Framed_append h16 (hd 120)
  have h18 := Framed_append h17 (hc k.ILI9341_DISPON)
  exact h18

theorem Framed_Init (k : Commands) (prior : Binding)
    (hspi cs_port cs_pin dc_port dc_pin reset_port reset_pin : Nat) :
    Framed (ILI9341_Init k prior hspi cs_port cs_pin dc_port dc_pin reset_port reset_pin).1
        (ILI9341_Init k prior hspi cs_port cs_pin dc_port dc_pin reset_port reset_pin).2
      ∧ EndsCsHigh
          (ILI9341_Init k prior hspi cs_port cs_pin dc_port dc_pin reset_port reset_pin).1
          (ILI9341_Init k prior hspi cs_port cs_pin dc_port dc_pin reset_port reset_pin).2 := by
  constructor
  · exact Framed_Init_trace k _
  · right
    show List.getLast? (_ ++ ILI9341_WriteCommand _ _) = _
    rw [List.getLast?_append]
    rfl
/-- A byte sent outside a chip-select frame violates `CsFramed`. -/
theorem CsFramed_rejects_bare_byte (b : Binding) (h v : Nat) :
    ¬ CsFramed b [Event.spi h v] := by
  intro hf
  have := (hf.1 0 h v rfl).1
  omega

/-- C19: chip-select framing holds for every public operation and all
arguments: in the bus trace of `ILI9341_SetAddressWindow`,
`ILI9341_FillScreen`, `ILI9341_FillRectangle`, `ILI9341_DrawPixel`,
`ILI9341_DrawChar`, `ILI9341_DrawString` and `ILI9341_Init` (on the binding it
installs), every transmitted byte is immediately preceded by a chip-select-low
write and immediately followed by a chip-select-high write, is sent while the
chip-select line is low, two bytes are never inside one frame, and a non-empty
trace ends with chip-select high. -/
theorem chip_select_framing (b : Binding) (k : Commands) (font : List Nat) (prior : Binding)
    (x0 y0 x1 y1 x y w h color fg bg size : Nat) (c : Int) (str : List Int)
    (hspi cs_port cs_pin dc_port dc_pin reset_port reset_pin : Nat) :
    CsFramed b (ILI9341_SetAddressWindow b k x0 y0 x1 y1)
      ∧ CsFramed b (ILI9341_FillScreen b k color)
      ∧ CsFramed b (ILI9341_FillRectangle b k x y w h color)
      ∧ CsFramed b (ILI9341_DrawPixel b k x y color)
      ∧ (∀ t : Trace, ILI9341_DrawChar b k font x y c fg bg size = some t → CsFramed b t)
      ∧ (∀ t : Trace, ILI9341_DrawString b k font x y str fg bg size = some t → CsFramed b t)
      ∧ CsFramed
          (ILI9341_Init k prior hspi cs_port cs_pin dc_port dc_pin reset_port reset_pin).1
          (ILI9341_Init k prior hspi cs_port cs_pin dc_port dc_pin reset_port reset_pin).2 := by
  refine ⟨?_, ?_, ?_, ?_, ?_, ?_, ?_⟩
  · exact CsFramed_of_Framed (Framed_SetAddressWindow b k x0 y0 x1 y1)
      (EndsCsHigh_SetAddressWindow b k x0 y0 x1 y1)
  · exact CsFramed_of_Framed (Framed_FillScreen b k color).1 (Framed_FillScreen b k color).2
  · exact CsFramed_of_Framed (Framed_FillRectangle b k x y w h color).1
      (Framed_FillRectangle b k x y w h color).2
  · exact CsFramed_of_Framed (Framed_DrawPixel b k x y color).1
      (Framed_DrawPixel b k x y color).2
  · intro t ht
    have hg := Framed_DrawChar b k font x y c fg bg size t ht
    exact CsFramed_of_Framed hg.1 hg.2
  · intro t ht
    have hg := Framed_DrawString b k font y fg bg size str x t ht
    exact CsFramed_of_Framed hg.1 hg.2
  · have hg := Framed_Init k prior hspi cs_port cs_pin dc_port dc_pin reset_port reset_pin
    exact CsFramed_of_Framed hg.1 hg.2

end ILI9341
